import Mathlib

/-!
# Verification of the single-active-version engine

A shallow embedding of the services in `src/services` (projectService.ts —
which also carries the prompt-version and auth services — and
promptService.ts) together with `src/utils/validation.ts` and the thin
controller-level duplicate-key mapping from the auth controller.

Mongo collections are embedded as Lean lists in insertion order;
`findOne` is `List.find?`, `countDocuments` is `List.filter` + `length`,
`updateMany` maps the update over every matching element, and
`findOneAndUpdate` (which updates a single document) updates the first
matching element and returns it.  Object ids are modelled as `Nat`s drawn
from a store-level counter.  Field names keep the source's names
(`userId`, `activePrompt` for the spec's `isActiveVersion`, `isActive`
for the soft-delete flag, `version` for `sequenceLabel`, `versionName`
for `displayName`).
-/

namespace Ameeba

/-- `$ne`-style exclusion filter plus optional ownership filter:
an absent (`none`) filter matches everything, mirroring the optional
query fields built in the services. -/
def optEq (o : Option Nat) (x : Nat) : Bool :=
  match o with
  | none => true
  | some y => x == y

/-- `_id: { $ne: excludeId }` with an optional excludeId. -/
def optNe (o : Option Nat) (x : Nat) : Bool :=
  match o with
  | none => true
  | some y => x != y

/-- JavaScript's notion of whitespace for `trim` (ASCII part). -/
def jsWhitespace (c : Char) : Bool :=
  c == ' ' || c == '\t' || c == '\n' || c == '\r'

/-- JavaScript `String.prototype.trim`: strip leading and trailing
whitespace. -/
def jsTrim (s : String) : String :=
  ⟨((s.data.dropWhile jsWhitespace).reverse.dropWhile jsWhitespace).reverse⟩

/-- JavaScript `String.prototype.toLowerCase` (ASCII range). -/
def jsToLower (s : String) : String := ⟨s.data.map Char.toLower⟩

/-- Mongo `findOneAndUpdate`'s list effect: apply `f` to the first
element matching `q`, leave the rest unchanged. -/
def updateFirst (q : α → Bool) (f : α → α) : List α → List α
  | [] => []
  | x :: xs => if q x then f x :: xs else x :: updateFirst q f xs

/-- models/Project.ts (name, userId, isActive; timestamps dropped). -/
structure Project where
  id : Nat
  userId : Nat
  name : String
  isActive : Bool
  deriving Repr, DecidableEq

/-- models/Prompt.ts. -/
structure Prompt where
  id : Nat
  userId : Nat
  projectId : Nat
  name : String
  isActive : Bool
  deriving Repr, DecidableEq

/-- models/PromptVersion.ts: `version` is the sequence label ("v1", …),
`versionName` the display name ("Version 1", …), `activePrompt` the
spec's `isActiveVersion`, `isActive` the soft-delete flag. -/
structure Version where
  id : Nat
  userId : Nat
  promptId : Nat
  promptText : String
  version : String
  versionName : String
  activePrompt : Bool
  isActive : Bool
  deriving Repr, DecidableEq

/-- User record (models/User.ts; the password hash is external I/O and
is not modelled — no claim concerns it). -/
structure UserRec where
  id : Nat
  email : String
  name : Option String
  isActive : Bool
  deriving Repr, DecidableEq

/-- The persistent store: one list per collection, in insertion order,
plus the id counter from which fresh `_id`s are drawn. -/
structure Store where
  users : List UserRec
  projects : List Project
  prompts : List Prompt
  versions : List Version
  nextId : Nat
  deriving Repr, DecidableEq

def Store.empty : Store := ⟨[], [], [], [], 0⟩

/-- constants/errorMessages.ts (the messages the claims mention). -/
def PROJECT_NOT_FOUND : String := "Project not found"
def PROJECT_DELETED : String := "Project has been deleted"
def PROMPT_NOT_FOUND : String := "Prompt not found"
def PROMPT_DELETED : String := "Prompt has been deleted"
def PROMPT_VERSION_NOT_FOUND : String := "Prompt version not found"
def PROMPT_VERSION_DELETED : String := "Prompt version has been deleted"
def NO_ACTIVE_VERSION_FOUND : String := "No active version found for this prompt"
def NO_VALID_FIELDS_TO_UPDATE : String := "No valid fields to update"
def UNABLE_TO_CREATE_ACCOUNT : String := "Unable to create account. Please try again."

/-- A service-level failure: a thrown `ApiError` (status code +
message), a MongoDB duplicate-key error (code 11000) raised by a
unique index at save time, or a mongoose ValidationError (recorded
with the offending schema path) thrown by `runValidators: true`; the
error middleware maps the latter two to a 400 response. -/
inductive SvcError where
  | api (statusCode : Nat) (message : String)
  | duplicateKey (field : String)
  | validation (path : String)
  deriving Repr, DecidableEq

instance {ε α : Type} [DecidableEq ε] [DecidableEq α] :
    DecidableEq (Except ε α)
  | .error e, .error e' =>
    if he : e = e' then .isTrue (by rw [he])
    else .isFalse (fun h => he (by injection h))
  | .error _, .ok _ => .isFalse (fun h => Except.noConfusion h)
  | .ok _, .error _ => .isFalse (fun h => Except.noConfusion h)
  | .ok a, .ok a' =>
    if ha : a = a' then .isTrue (by rw [ha])
    else .isFalse (fun h => ha (by injection h))

/-- Request bodies (types/index.ts). -/
structure ProjectBody where
  name : String
  isActive : Option Bool := none
  deriving Repr, DecidableEq

structure UpdateProjectBody where
  name : Option String := none
  isActive : Option Bool := none
  deriving Repr, DecidableEq

structure PromptBody where
  name : String
  isActive : Option Bool := none
  deriving Repr, DecidableEq

structure UpdatePromptBody where
  name : Option String := none
  isActive : Option Bool := none
  deriving Repr, DecidableEq

structure VersionBody where
  promptText : String
  activePrompt : Option Bool := none
  isActive : Option Bool := none
  deriving Repr, DecidableEq

structure UpdateVersionBody where
  promptText : Option String := none
  activePrompt : Option Bool := none
  isActive : Option Bool := none
  deriving Repr, DecidableEq

structure SignupBody where
  email : String
  password : String
  name : Option String := none
  deriving Repr, DecidableEq

/-- The `name` validators of models/Project.ts and models/Prompt.ts:
the schema trims the value (`trim: true`, idempotent here because the
services already trim), then `minlength: [1, ...]` and
`maxlength: [200, ...]` apply to the trimmed value (`required` also
rejects the empty string, which `minlength: 1` already covers). -/
def validName (name : String) : Bool :=
  1 ≤ (jsTrim name).length && (jsTrim name).length ≤ 200

/-- The `promptText` validator of models/PromptVersion.ts: trimmed,
`required`, `minlength: [1, ...]` — the trimmed value must be
non-empty. -/
def validPromptText (text : String) : Bool :=
  1 ≤ (jsTrim text).length

/-- `findOneAndUpdate(..., {runValidators: true})` runs the update
validators on exactly the paths present in the `$set` document: a
field that is absent is not validated (`isActive`/`activePrompt` are
plain booleans with no validators). -/
def projectSetValid (u : UpdateProjectBody) : Bool :=
  u.name.all validName

def promptSetValid (u : UpdatePromptBody) : Bool :=
  u.name.all validName

def versionSetValid (u : UpdateVersionBody) : Bool :=
  u.promptText.all validPromptText

/-! ## projectService.ts — project operations -/

/-- createProject: `new Project({userId, name: name.trim(), isActive:
isActive ?? DEFAULTS.IS_ACTIVE}).save()`; DEFAULTS.IS_ACTIVE = true. -/
def createProject (s : Store) (userId : Nat) (b : ProjectBody) :
    Project × Store :=
  let p : Project :=
    { id := s.nextId, userId := userId, name := jsTrim b.name,
      isActive := b.isActive.getD true }
  (p, { s with projects := s.projects ++ [p], nextId := s.nextId + 1 })

/-- getProjectById: `findOne({_id, userId?})`, 404 when absent, 404
"deleted" when `isActive` is false. -/
def getProjectById (s : Store) (projectId : Nat) (userId : Option Nat) :
    Except SvcError Project :=
  match s.projects.find? (fun p => p.id == projectId && optEq userId p.userId) with
  | none => .error (.api 404 PROJECT_NOT_FOUND)
  | some p =>
    if p.isActive then .ok p else .error (.api 404 PROJECT_DELETED)

/-- the `$set` document built by updateProject from the provided fields. -/
def applyProjectUpdate (u : UpdateProjectBody) (p : Project) : Project :=
  { p with name := (u.name.map jsTrim).getD p.name,
           isActive := u.isActive.getD p.isActive }

/-- updateProject: `findOne({_id, userId})` (404 when absent), reject an
empty update document (400), then `findOneAndUpdate` with the same
filter and `{new: true, runValidators: true}` — the schema validators
run on the `$set` paths and a failing `name` raises a ValidationError
before anything is written — returning the updated document. -/
def updateProject (s : Store) (projectId userId : Nat) (u : UpdateProjectBody) :
    Except SvcError (Project × Store) :=
  match s.projects.find? (fun p => p.id == projectId && p.userId == userId) with
  | none => .error (.api 404 PROJECT_NOT_FOUND)
  | some _ =>
    if u.name.isNone && u.isActive.isNone then
      .error (.api 400 NO_VALID_FIELDS_TO_UPDATE)
    else if projectSetValid u then
      match s.projects.find? (fun p => p.id == projectId && p.userId == userId) with
      | none => .error (.api 404 PROJECT_NOT_FOUND)
      | some p =>
        .ok (applyProjectUpdate u p,
          { s with projects := updateFirst (fun p => p.id == projectId && p.userId == userId) (applyProjectUpdate u) s.projects })
    else
      .error (.validation "name")

/-- deleteProject: `findOneAndUpdate({_id, userId}, {$set: {isActive:
false}})` — note: no `isActive` filter, so an already-deleted project
still matches. -/
def deleteProject (s : Store) (projectId userId : Nat) :
    Except SvcError (Project × Store) :=
  match s.projects.find? (fun p => p.id == projectId && p.userId == userId) with
  | none => .error (.api 404 PROJECT_NOT_FOUND)
  | some p =>
    .ok ({ p with isActive := false },
      { s with projects := updateFirst (fun p => p.id == projectId && p.userId == userId) (fun x => { x with isActive := false }) s.projects })

/-! ## utils/validation.ts + promptService.ts — prompt operations -/

/-- utils/validation.ts `validateProjectExists(projectId)`: the function
takes only a `projectId` parameter and looks the project up with
`Project.findById` — it has no ownership filter.  (promptService.ts
passes a second `userId` argument at the call sites, which JavaScript
silently discards.) -/
def validateProjectExists (s : Store) (projectId : Nat) :
    Except SvcError Unit :=
  match s.projects.find? (fun p => p.id == projectId) with
  | none => .error (.api 404 PROJECT_NOT_FOUND)
  | some p =>
    if p.isActive then .ok () else .error (.api 404 PROJECT_DELETED)

/-- createPrompt: validate the project (see `validateProjectExists` —
the `userId` argument of the call is dropped), then save a prompt
carrying the caller's `userId`. -/
def createPrompt (s : Store) (userId projectId : Nat) (b : PromptBody) :
    Except SvcError (Prompt × Store) :=
  match validateProjectExists s projectId with
  | .error e => .error e
  | .ok _ =>
    let p : Prompt :=
      { id := s.nextId, userId := userId, projectId := projectId,
        name := jsTrim b.name, isActive := b.isActive.getD true }
    .ok (p, { s with prompts := s.prompts ++ [p], nextId := s.nextId + 1 })

/-- getPromptById (population of `projectId` dropped: it only decorates
the returned document). -/
def getPromptById (s : Store) (promptId : Nat) (userId : Option Nat) :
    Except SvcError Prompt :=
  match s.prompts.find? (fun p => p.id == promptId && optEq userId p.userId) with
  | none => .error (.api 404 PROMPT_NOT_FOUND)
  | some p =>
    if p.isActive then .ok p else .error (.api 404 PROMPT_DELETED)

def applyPromptUpdate (u : UpdatePromptBody) (p : Prompt) : Prompt :=
  { p with name := (u.name.map jsTrim).getD p.name,
           isActive := u.isActive.getD p.isActive }

/-- updatePrompt: same shape as updateProject, including the
`runValidators: true` check of the Prompt schema's `name`. -/
def updatePrompt (s : Store) (promptId userId : Nat) (u : UpdatePromptBody) :
    Except SvcError (Prompt × Store) :=
  match s.prompts.find? (fun p => p.id == promptId && p.userId == userId) with
  | none => .error (.api 404 PROMPT_NOT_FOUND)
  | some _ =>
    if u.name.isNone && u.isActive.isNone then
      .error (.api 400 NO_VALID_FIELDS_TO_UPDATE)
    else if promptSetValid u then
      match s.prompts.find? (fun p => p.id == promptId && p.userId == userId) with
      | none => .error (.api 404 PROMPT_NOT_FOUND)
      | some p =>
        .ok (applyPromptUpdate u p,
          { s with prompts := updateFirst (fun p => p.id == promptId && p.userId == userId) (applyPromptUpdate u) s.prompts })
    else
      .error (.validation "name")

/-- deletePrompt: soft delete, same shape as deleteProject. -/
def deletePrompt (s : Store) (promptId userId : Nat) :
    Except SvcError (Prompt × Store) :=
  match s.prompts.find? (fun p => p.id == promptId && p.userId == userId) with
  | none => .error (.api 404 PROMPT_NOT_FOUND)
  | some p =>
    .ok ({ p with isActive := false },
      { s with prompts := updateFirst (fun p => p.id == promptId && p.userId == userId) (fun x => { x with isActive := false }) s.prompts })

/-! ## projectService.ts — prompt-version operations -/

/-- The per-document effect of deactivateOtherVersions' `updateMany`
call: clear `activePrompt` when the document matches the filter
`{promptId, activePrompt: true, userId?, _id: {$ne: excludeVersionId}?}`,
leave it alone otherwise. -/
def deactivateDoc (promptId : Nat) (excludeVersionId : Option Nat)
    (userId : Option Nat) (v : Version) : Version :=
  if v.promptId == promptId && v.activePrompt &&
      optEq userId v.userId && optNe excludeVersionId v.id
  then { v with activePrompt := false } else v

/-- deactivateOtherVersions: `updateMany({promptId, activePrompt: true,
userId?, _id: {$ne: excludeVersionId}?}, {$set: {activePrompt: false}})`
— applied to every matching document. -/
def deactivateOtherVersions (s : Store) (promptId : Nat)
    (excludeVersionId : Option Nat) (userId : Option Nat) : Store :=
  { s with versions := s.versions.map (deactivateDoc promptId excludeVersionId userId) }

/-- validatePromptExists: `Prompt.findOne({_id, userId?})`, 404 when
absent, 404 "deleted" when soft-deleted. -/
def validatePromptExists (s : Store) (promptId : Nat) (userId : Option Nat) :
    Except SvcError Unit :=
  match s.prompts.find? (fun p => p.id == promptId && optEq userId p.userId) with
  | none => .error (.api 404 PROMPT_NOT_FOUND)
  | some p =>
    if p.isActive then .ok () else .error (.api 404 PROMPT_DELETED)

/-- createPromptVersion: validate the prompt with ownership, count all
existing versions for `{promptId, userId}` (soft-deleted included),
label the new version `v(count+1)` / `Version (count+1)`, deactivate the
other versions when `activePrompt === true`, then save.
DEFAULTS.ACTIVE_PROMPT = false, DEFAULTS.IS_ACTIVE = true. -/
def createPromptVersion (s : Store) (userId promptId : Nat) (b : VersionBody) :
    Except SvcError (Version × Store) :=
  match validatePromptExists s promptId (some userId) with
  | .error e => .error e
  | .ok _ =>
    let count := (s.versions.filter
      (fun v => v.promptId == promptId && v.userId == userId)).length
    let n := count + 1
    let s1 := if b.activePrompt == some true then
        deactivateOtherVersions s promptId none (some userId)
      else s
    let v : Version :=
      { id := s1.nextId, userId := userId, promptId := promptId,
        promptText := jsTrim b.promptText,
        version := "v" ++ toString n,
        versionName := "Version " ++ toString n,
        activePrompt := b.activePrompt.getD false,
        isActive := b.isActive.getD true }
    .ok (v, { s1 with versions := s1.versions ++ [v], nextId := s1.nextId + 1 })

/-- getActivePromptVersion (the public read path): validate the prompt
without ownership, then `findOne({promptId, activePrompt: true,
isActive: true})`; 404 "no active version" when none matches. -/
def getActivePromptVersion (s : Store) (promptId : Nat) :
    Except SvcError Version :=
  match validatePromptExists s promptId none with
  | .error e => .error e
  | .ok _ =>
    match s.versions.find?
        (fun v => v.promptId == promptId && v.activePrompt && v.isActive) with
    | none => .error (.api 404 NO_ACTIVE_VERSION_FOUND)
    | some v => .ok v

/-- getPromptVersionById. -/
def getPromptVersionById (s : Store) (versionId : Nat) (userId : Option Nat) :
    Except SvcError Version :=
  match s.versions.find? (fun v => v.id == versionId && optEq userId v.userId) with
  | none => .error (.api 404 PROMPT_VERSION_NOT_FOUND)
  | some v =>
    if v.isActive then .ok v else .error (.api 404 PROMPT_VERSION_DELETED)

def applyVersionUpdate (u : UpdateVersionBody) (v : Version) : Version :=
  { v with promptText := (u.promptText.map jsTrim).getD v.promptText,
           activePrompt := u.activePrompt.getD v.activePrompt,
           isActive := u.isActive.getD v.isActive }

/-- the `findOneAndUpdate({_id, userId}, {$set: updateFields}, {new:
true, runValidators: true})` step of updatePromptVersion: mongoose
runs the update validators on the `$set` paths before executing the
query, so a `promptText` failing the schema raises a ValidationError
regardless of whether a document matches. -/
def updateVersionDoc (s1 : Store) (versionId userId : Nat) (u : UpdateVersionBody) :
    Except SvcError (Version × Store) :=
  if versionSetValid u then
    match s1.versions.find? (fun v => v.id == versionId && v.userId == userId) with
    | none => .error (.api 404 PROMPT_VERSION_NOT_FOUND)
    | some v =>
      .ok (applyVersionUpdate u v,
        { s1 with versions := updateFirst (fun v => v.id == versionId && v.userId == userId) (applyVersionUpdate u) s1.versions })
  else
    .error (.validation "promptText")

/-- updatePromptVersion: `findOne({_id, userId})` (404 when absent — no
`isActive` filter, so a soft-deleted version is still found); when
`activePrompt === true` is supplied, deactivate the other versions of
`existingVersion.promptId` excluding this one; reject an empty update
document (400); then `findOneAndUpdate({_id, userId}, {$set:
updateFields})`.  (In the source the deactivation runs while the update
document is being assembled, before the emptiness check; the two orders
agree because an empty update document means `activePrompt` was absent,
in which case no deactivation happens.) -/
def updatePromptVersion (s : Store) (versionId userId : Nat)
    (u : UpdateVersionBody) : Except SvcError (Version × Store) :=
  match s.versions.find? (fun v => v.id == versionId && v.userId == userId) with
  | none => .error (.api 404 PROMPT_VERSION_NOT_FOUND)
  | some existing =>
    if u.promptText.isNone && u.activePrompt.isNone && u.isActive.isNone then
      .error (.api 400 NO_VALID_FIELDS_TO_UPDATE)
    else
      updateVersionDoc
        (if u.activePrompt == some true then
          deactivateOtherVersions s existing.promptId (some versionId) (some userId)
         else s) versionId userId u

/-- The store left behind by a FAILED updatePromptVersion request.
The deactivation `updateMany` runs while the update document is being
assembled, so when `activePrompt === true` is supplied and the version
is found, its effect has already been persisted by the time the
`runValidators` check throws — there is no transaction rolling it
back.  (On the 404 and empty-document paths nothing has been written:
an empty document means `activePrompt` was absent.) -/
def updatePromptVersionFailState (s : Store) (versionId userId : Nat)
    (u : UpdateVersionBody) : Store :=
  match s.versions.find? (fun v => v.id == versionId && v.userId == userId) with
  | none => s
  | some existing =>
    if u.activePrompt == some true then
      deactivateOtherVersions s existing.promptId (some versionId) (some userId)
    else s

/-- deletePromptVersion: `findOneAndUpdate({_id, userId}, {$set:
{isActive: false}})` — a single-field write, no `isActive` filter. -/
def deletePromptVersion (s : Store) (versionId userId : Nat) :
    Except SvcError (Version × Store) :=
  match s.versions.find? (fun v => v.id == versionId && v.userId == userId) with
  | none => .error (.api 404 PROMPT_VERSION_NOT_FOUND)
  | some v =>
    .ok ({ v with isActive := false },
      { s with versions := updateFirst (fun v => v.id == versionId && v.userId == userId) (fun x => { x with isActive := false }) s.versions })

/-! ## projectService.ts (auth section) + authController.ts — signup -/

/-- signupUser: the existing-user check is `User.findOne({email:
email.toLowerCase()})` — lower-cased but NOT trimmed; on a hit the
service throws the generic 400.  The stored email is
`email.toLowerCase().trim()`.
Modelled from the spec: models/User.ts is absent from the sources; its
schema (evidenced by `__tests__/models/User.test.ts`) declares a unique
index on `email`, so saving a user whose normalized email is already
stored raises a MongoDB duplicate-key error (code 11000). -/
def signupUser (s : Store) (b : SignupBody) :
    Except SvcError (UserRec × Store) :=
  match s.users.find? (fun u => u.email == jsToLower b.email) with
  | some _ => .error (.api 400 UNABLE_TO_CREATE_ACCOUNT)
  | none =>
    if s.users.any (fun u => u.email == jsTrim (jsToLower b.email)) then
      .error (.duplicateKey "email")
    else
      let u : UserRec :=
        { id := s.nextId, email := jsTrim (jsToLower b.email),
          name := b.name.map jsTrim, isActive := true }
      .ok (u, { s with users := s.users ++ [u], nextId := s.nextId + 1 })

/-- authController.ts `signup`: a duplicate-key error (code 11000) from
the save is mapped to the same generic 400 message; everything else
passes through. -/
def register (s : Store) (b : SignupBody) :
    Except SvcError (UserRec × Store) :=
  match signupUser s b with
  | .error (.duplicateKey _) => .error (.api 400 UNABLE_TO_CREATE_ACCOUNT)
  | r => r

/-! ## The sequential operation model -/

/-- One mutating request against the services. -/
inductive Op where
  | createProject (userId : Nat) (b : ProjectBody)
  | updateProject (projectId userId : Nat) (u : UpdateProjectBody)
  | deleteProject (projectId userId : Nat)
  | createPrompt (userId projectId : Nat) (b : PromptBody)
  | updatePrompt (promptId userId : Nat) (u : UpdatePromptBody)
  | deletePrompt (promptId userId : Nat)
  | createPromptVersion (userId promptId : Nat) (b : VersionBody)
  | updatePromptVersion (versionId userId : Nat) (u : UpdateVersionBody)
  | deletePromptVersion (versionId userId : Nat)
  deriving Repr, DecidableEq

/-- Run one request to completion.  A failed request leaves the store
unchanged, with one exception mirrored from the source: a failed
updatePromptVersion keeps the deactivation pass that ran before the
validators threw (updatePromptVersionFailState). -/
def applyOp (s : Store) (op : Op) : Store :=
  match op with
  | .createProject u b => (createProject s u b).2
  | .updateProject pid u ub =>
    match updateProject s pid u ub with
    | .ok (_, s') => s'
    | .error _ => s
  | .deleteProject pid u =>
    match deleteProject s pid u with
    | .ok (_, s') => s'
    | .error _ => s
  | .createPrompt u pid b =>
    match createPrompt s u pid b with
    | .ok (_, s') => s'
    | .error _ => s
  | .updatePrompt pid u ub =>
    match updatePrompt s pid u ub with
    | .ok (_, s') => s'
    | .error _ => s
  | .deletePrompt pid u =>
    match deletePrompt s pid u with
    | .ok (_, s') => s'
    | .error _ => s
  | .createPromptVersion u pid b =>
    match createPromptVersion s u pid b with
    | .ok (_, s') => s'
    | .error _ => s
  | .updatePromptVersion vid u ub =>
    match updatePromptVersion s vid u ub with
    | .ok (_, s') => s'
    | .error _ => updatePromptVersionFailState s vid u ub
  | .deletePromptVersion vid u =>
    match deletePromptVersion s vid u with
    | .ok (_, s') => s'
    | .error _ => s

/-- Run a sequence of requests from the empty store. -/
def run (ops : List Op) : Store := ops.foldl applyOp Store.empty

/-- The returned document of a successful service call, `none` on failure. -/
def okVal : Except SvcError (α × Store) → Option α
  | .ok (v, _) => some v
  | .error _ => none

/-- The post-state of a successful service call, `none` on failure. -/
def okState : Except SvcError (α × Store) → Option Store
  | .ok (_, s) => some s
  | .error _ => none

/-! ## List lemmas for the Mongo-style update helpers -/

theorem mem_updateFirst {l : List α} {q : α → Bool} {f : α → α} :
    ∀ {y : α}, y ∈ updateFirst q f l →
      y ∈ l ∨ ∃ x ∈ l, q x = true ∧ y = f x := by
  induction l with
  | nil => intro y h; simp [updateFirst] at h
  | cons x xs ih =>
    intro y h
    simp only [updateFirst] at h
    by_cases hq : q x
    · rw [if_pos hq] at h
      rcases List.mem_cons.mp h with h | h
      · exact Or.inr ⟨x, List.mem_cons_self x xs, hq, h⟩
      · exact Or.inl (List.mem_cons_of_mem x h)
    · rw [if_neg hq] at h
      rcases List.mem_cons.mp h with h | h
      · exact Or.inl (h ▸ List.mem_cons_self x xs)
      · rcases ih h with h' | ⟨z, hz, hqz, hy⟩
        · exact Or.inl (List.mem_cons_of_mem x h')
        · exact Or.inr ⟨z, List.mem_cons_of_mem x hz, hqz, hy⟩

theorem updateFirst_surj {l : List α} {q : α → Bool} {f : α → α} :
    ∀ {x : α}, x ∈ l → ∃ y ∈ updateFirst q f l, y = x ∨ y = f x := by
  induction l with
  | nil => intro x h; simp at h
  | cons a xs ih =>
    intro x h
    simp only [updateFirst]
    by_cases hq : q a
    · simp only [hq, if_true]
      rcases List.mem_cons.mp h with h | h
      · exact ⟨f a, List.mem_cons_self _ _, Or.inr (by rw [h])⟩
      · exact ⟨x, List.mem_cons_of_mem _ h, Or.inl rfl⟩
    · simp only [hq, if_false]
      rcases List.mem_cons.mp h with h | h
      · exact ⟨a, List.mem_cons_self _ _, Or.inl h.symm⟩
      · rcases ih h with ⟨y, hy, hyx⟩
        exact ⟨y, List.mem_cons_of_mem _ hy, hyx⟩

theorem map_updateFirst {l : List α} {q : α → Bool} {f : α → α}
    (key : α → β) (hkey : ∀ x, key (f x) = key x) :
    (updateFirst q f l).map key = l.map key := by
  induction l with
  | nil => rfl
  | cons x xs ih =>
    simp only [updateFirst]
    by_cases hq : q x
    · simp [hq, hkey]
    · simp [hq, ih]

theorem find?_updateFirst {l : List α} {q : α → Bool} {f : α → α}
    (hq : ∀ x, q (f x) = q x) :
    (updateFirst q f l).find? q = (l.find? q).map f := by
  induction l with
  | nil => rfl
  | cons x xs ih =>
    by_cases h : q x
    · simp [updateFirst, h, List.find?_cons, hq]
    · simp [updateFirst, h, List.find?_cons, ih]

theorem countP_updateFirst_le {l : List α} {q : α → Bool} {f : α → α}
    (r : α → Bool) (h : ∀ x ∈ l, r (f x) = true → r x = true) :
    (updateFirst q f l).countP r ≤ l.countP r := by
  induction l with
  | nil => simp [updateFirst]
  | cons x xs ih =>
    have hx := h x (List.mem_cons_self x xs)
    have ihx := ih (fun y hy => h y (List.mem_cons_of_mem x hy))
    simp only [updateFirst]
    by_cases hq : q x
    · rw [if_pos hq]
      simp only [List.countP_cons]
      by_cases hrf : r (f x)
      · rw [if_pos hrf, if_pos (hx hrf)]
      · rw [if_neg hrf]
        split <;> omega
    · rw [if_neg hq]
      simp only [List.countP_cons]
      exact Nat.add_le_add_right ihx _

theorem countP_updateFirst_eq {l : List α} {q : α → Bool} {f : α → α}
    (r : α → Bool) (h : ∀ x ∈ l, q x = true → r (f x) = r x) :
    (updateFirst q f l).countP r = l.countP r := by
  induction l with
  | nil => rfl
  | cons x xs ih =>
    have ihx := ih (fun y hy => h y (List.mem_cons_of_mem x hy))
    simp only [updateFirst]
    by_cases hq : q x
    · rw [if_pos hq]
      simp only [List.countP_cons, h x (List.mem_cons_self x xs) hq]
    · rw [if_neg hq]
      simp only [List.countP_cons, ihx]

theorem filter_map_updateFirst {l : List α} {q : α → Bool} {f : α → α}
    (r : α → Bool) (ver : α → β)
    (hr : ∀ x ∈ l, r (f x) = r x)
    (hv : ∀ x ∈ l, r x = true → ver (f x) = ver x) :
    ((updateFirst q f l).filter r).map ver = (l.filter r).map ver := by
  induction l with
  | nil => rfl
  | cons x xs ih =>
    have hrx := hr x (List.mem_cons_self x xs)
    have hvx := hv x (List.mem_cons_self x xs)
    have ihx := ih (fun y hy => hr y (List.mem_cons_of_mem x hy))
      (fun y hy => hv y (List.mem_cons_of_mem x hy))
    simp only [updateFirst]
    by_cases hq : q x
    · by_cases hrx' : r x
      · simp [hq, List.filter_cons, hrx, hrx', hvx hrx']
      · simp [hq, List.filter_cons, hrx, hrx']
    · by_cases hrx' : r x
      · simp [hq, List.filter_cons, hrx', ihx]
      · simp [hq, List.filter_cons, hrx', ihx]

theorem countP_map_le {l : List α} (g : α → α) (r : α → Bool)
    (h : ∀ x ∈ l, r (g x) = true → r x = true) :
    (l.map g).countP r ≤ l.countP r := by
  induction l with
  | nil => simp
  | cons x xs ih =>
    have hx := h x (List.mem_cons_self x xs)
    have ihx := ih (fun y hy => h y (List.mem_cons_of_mem x hy))
    simp only [List.map_cons, List.countP_cons]
    by_cases hrf : r (g x)
    · rw [if_pos hrf, if_pos (hx hrf)]
      omega
    · rw [if_neg hrf]
      split <;> omega

theorem filter_map_map {l : List α} (g : α → α) (r : α → Bool) (ver : α → β)
    (hr : ∀ x ∈ l, r (g x) = r x)
    (hv : ∀ x ∈ l, r x = true → ver (g x) = ver x) :
    ((l.map g).filter r).map ver = (l.filter r).map ver := by
  induction l with
  | nil => rfl
  | cons x xs ih =>
    have hrx := hr x (List.mem_cons_self x xs)
    have hvx := hv x (List.mem_cons_self x xs)
    have ihx := ih (fun y hy => hr y (List.mem_cons_of_mem x hy))
      (fun y hy => hv y (List.mem_cons_of_mem x hy))
    by_cases hrx' : r x
    · simp [List.filter_cons, hrx, hrx', hvx hrx', ihx]
    · simp [List.filter_cons, hrx, hrx', ihx]

theorem length_filter_map_eq {l : List α} (g : α → α) (r : α → Bool)
    (h : ∀ x ∈ l, r (g x) = r x) :
    ((l.map g).filter r).length = (l.filter r).length := by
  have hmm := congrArg List.length
    (filter_map_map (l := l) g r (fun _ => ()) h (fun _ _ _ => rfl))
  simpa using hmm

theorem length_filter_updateFirst_eq {l : List α} {q : α → Bool} {f : α → α}
    (r : α → Bool) (h : ∀ x ∈ l, r (f x) = r x) :
    ((updateFirst q f l).filter r).length = (l.filter r).length := by
  have hmm := congrArg List.length
    (filter_map_updateFirst (l := l) (q := q) (f := f) r (fun _ => ()) h
      (fun _ _ _ => rfl))
  simpa using hmm

theorem eq_of_nodup_key {l : List α} {key : α → β}
    (hnod : (l.map key).Nodup) :
    ∀ {a b : α}, a ∈ l → b ∈ l → key a = key b → a = b := by
  induction l with
  | nil => intro a b ha; simp at ha
  | cons x xs ih =>
    intro a b ha hb hk
    simp only [List.map_cons, List.nodup_cons] at hnod
    rcases List.mem_cons.mp ha with ha | ha <;>
      rcases List.mem_cons.mp hb with hb | hb
    · rw [ha, hb]
    · exact absurd (by rw [← ha, hk]; exact List.mem_map_of_mem key hb) hnod.1
    · exact absurd (by rw [← hb, ← hk]; exact List.mem_map_of_mem key ha) hnod.1
    · exact ih hnod.2 ha hb hk

theorem nodup_append_singleton {l : List β} {a : β}
    (h : l.Nodup) (ha : a ∉ l) : (l ++ [a]).Nodup := by
  rw [List.nodup_append]
  exact ⟨h, List.nodup_singleton a, by
    intro x hx hxa
    rw [List.mem_singleton.mp hxa] at hx
    exact ha hx⟩

theorem countP_le_one_of_key {l : List α} {r : α → Bool} (key : α → β) (k : β)
    (hnod : (l.map key).Nodup) (h : ∀ x ∈ l, r x = true → key x = k) :
    l.countP r ≤ 1 := by
  induction l with
  | nil => simp
  | cons x xs ih =>
    simp only [List.map_cons, List.nodup_cons] at hnod
    by_cases hr : r x
    · have hxk : key x = k := h x (List.mem_cons_self x xs) hr
      have hzero : xs.countP r = 0 := by
        rw [List.countP_eq_zero]
        intro y hy hry
        have hyk : key y = k := h y (List.mem_cons_of_mem x hy) hry
        exact absurd (hxk.trans hyk.symm ▸ List.mem_map_of_mem key hy) hnod.1
      simp [List.countP_cons, hr, hzero]
    · have hle := ih hnod.2 (fun y hy => h y (List.mem_cons_of_mem x hy))
      simp only [List.countP_cons]
      rw [if_neg hr]
      omega

/-! ## Success-shape lemmas for the operations -/

theorem applyProjectUpdate_id (u : UpdateProjectBody) (p : Project) :
    (applyProjectUpdate u p).id = p.id := rfl

theorem applyProjectUpdate_userId (u : UpdateProjectBody) (p : Project) :
    (applyProjectUpdate u p).userId = p.userId := rfl

theorem applyPromptUpdate_id (u : UpdatePromptBody) (p : Prompt) :
    (applyPromptUpdate u p).id = p.id := rfl

theorem applyPromptUpdate_userId (u : UpdatePromptBody) (p : Prompt) :
    (applyPromptUpdate u p).userId = p.userId := rfl

theorem applyVersionUpdate_id (u : UpdateVersionBody) (v : Version) :
    (applyVersionUpdate u v).id = v.id := rfl

theorem applyVersionUpdate_userId (u : UpdateVersionBody) (v : Version) :
    (applyVersionUpdate u v).userId = v.userId := rfl

theorem applyVersionUpdate_promptId (u : UpdateVersionBody) (v : Version) :
    (applyVersionUpdate u v).promptId = v.promptId := rfl

theorem applyVersionUpdate_version (u : UpdateVersionBody) (v : Version) :
    (applyVersionUpdate u v).version = v.version := rfl

theorem applyVersionUpdate_versionName (u : UpdateVersionBody) (v : Version) :
    (applyVersionUpdate u v).versionName = v.versionName := rfl

/-- Unpacking a successful owner-scoped version lookup. -/
theorem find?_version_owner {l : List Version} {vid u : Nat} {v : Version}
    (h : l.find? (fun w => w.id == vid && w.userId == u) = some v) :
    v ∈ l ∧ v.id = vid ∧ v.userId = u := by
  have hm := List.mem_of_find?_eq_some h
  have hp := List.find?_some h
  simp only [Bool.and_eq_true, beq_iff_eq] at hp
  exact ⟨hm, hp.1, hp.2⟩

/-- Unpacking a successful owner-scoped prompt lookup (with the
optional-ownership filter instantiated to a concrete owner). -/
theorem find?_prompt_owner {l : List Prompt} {pid u : Nat} {P : Prompt}
    (h : l.find? (fun p => p.id == pid && optEq (some u) p.userId) = some P) :
    P ∈ l ∧ P.id = pid ∧ P.userId = u := by
  have hm := List.mem_of_find?_eq_some h
  have hp := List.find?_some h
  simp only [optEq, Bool.and_eq_true, beq_iff_eq] at hp
  exact ⟨hm, hp.1, hp.2⟩

theorem validatePromptExists_ok {s : Store} {pid : Nat} {uid : Option Nat}
    (h : validatePromptExists s pid uid = .ok ()) :
    ∃ P, s.prompts.find? (fun p => p.id == pid && optEq uid p.userId) = some P ∧
      P.isActive = true := by
  unfold validatePromptExists at h
  split at h
  · exact absurd h (by simp)
  · next P hfind =>
    split at h
    · next hPa => exact ⟨P, hfind, hPa⟩
    · exact absurd h (by simp)

theorem createPrompt_ok {s : Store} {u pid : Nat} {b : PromptBody}
    {r : Prompt} {s' : Store} (h : createPrompt s u pid b = .ok (r, s')) :
    r = ⟨s.nextId, u, pid, jsTrim b.name, b.isActive.getD true⟩ ∧
    s' = { s with prompts := s.prompts ++ [r], nextId := s.nextId + 1 } := by
  unfold createPrompt at h
  split at h
  · exact absurd h (by simp)
  · injection h with h'
    injection h' with h1 h2
    refine ⟨h1.symm, ?_⟩
    rw [← h2, h1]

theorem updateProject_ok {s : Store} {pid u : Nat} {ub : UpdateProjectBody}
    {r : Project} {s' : Store}
    (h : updateProject s pid u ub = .ok (r, s')) :
    ∃ p, s.projects.find? (fun x => x.id == pid && x.userId == u) = some p ∧
      r = applyProjectUpdate ub p ∧
      s' = { s with projects := updateFirst (fun x => x.id == pid && x.userId == u) (applyProjectUpdate ub) s.projects } := by
  unfold updateProject at h
  split at h
  · exact absurd h (by simp)
  · next p0 hfind0 =>
    split at h
    · exact absurd h (by simp)
    · split at h
      · split at h
        · exact absurd h (by simp)
        · next p hfind =>
          injection h with h'
          injection h' with h1 h2
          injection hfind with hp
          exact ⟨p, by rw [hfind0, hp], h1.symm, h2.symm⟩
      · exact absurd h (by simp)

theorem deleteProject_ok {s : Store} {pid u : Nat} {r : Project} {s' : Store}
    (h : deleteProject s pid u = .ok (r, s')) :
    ∃ p, s.projects.find? (fun x => x.id == pid && x.userId == u) = some p ∧
      r = { p with isActive := false } ∧
      s' = { s with projects := updateFirst (fun x => x.id == pid && x.userId == u) (fun x => { x with isActive := false }) s.projects } := by
  unfold deleteProject at h
  split at h
  · exact absurd h (by simp)
  · next p hfind =>
    injection h with h'
    injection h' with h1 h2
    exact ⟨p, hfind, h1.symm, h2.symm⟩

theorem updatePrompt_ok {s : Store} {pid u : Nat} {ub : UpdatePromptBody}
    {r : Prompt} {s' : Store}
    (h : updatePrompt s pid u ub = .ok (r, s')) :
    ∃ p, s.prompts.find? (fun x => x.id == pid && x.userId == u) = some p ∧
      r = applyPromptUpdate ub p ∧
      s' = { s with prompts := updateFirst (fun x => x.id == pid && x.userId == u) (applyPromptUpdate ub) s.prompts } := by
  unfold updatePrompt at h
  split at h
  · exact absurd h (by simp)
  · next p0 hfind0 =>
    split at h
    · exact absurd h (by simp)
    · split at h
      · split at h
        · exact absurd h (by simp)
        · next p hfind =>
          injection h with h'
          injection h' with h1 h2
          injection hfind with hp
          exact ⟨p, by rw [hfind0, hp], h1.symm, h2.symm⟩
      · exact absurd h (by simp)

theorem deletePrompt_ok {s : Store} {pid u : Nat} {r : Prompt} {s' : Store}
    (h : deletePrompt s pid u = .ok (r, s')) :
    ∃ p, s.prompts.find? (fun x => x.id == pid && x.userId == u) = some p ∧
      r = { p with isActive := false } ∧
      s' = { s with prompts := updateFirst (fun x => x.id == pid && x.userId == u) (fun x => { x with isActive := false }) s.prompts } := by
  unfold deletePrompt at h
  split at h
  · exact absurd h (by simp)
  · next p hfind =>
    injection h with h'
    injection h' with h1 h2
    exact ⟨p, hfind, h1.symm, h2.symm⟩

theorem createPromptVersion_ok {s : Store} {u pid : Nat} {b : VersionBody}
    {r : Version} {s' : Store}
    (h : createPromptVersion s u pid b = .ok (r, s')) :
    validatePromptExists s pid (some u) = .ok () ∧
    r = { id := s.nextId, userId := u, promptId := pid,
          promptText := jsTrim b.promptText,
          version := "v" ++ toString ((s.versions.filter
            (fun v => v.promptId == pid && v.userId == u)).length + 1),
          versionName := "Version " ++ toString ((s.versions.filter
            (fun v => v.promptId == pid && v.userId == u)).length + 1),
          activePrompt := b.activePrompt.getD false,
          isActive := b.isActive.getD true } ∧
    s'.users = s.users ∧ s'.projects = s.projects ∧ s'.prompts = s.prompts ∧
    s'.versions = (if b.activePrompt == some true then
        deactivateOtherVersions s pid none (some u) else s).versions ++ [r] ∧
    s'.nextId = s.nextId + 1 := by
  unfold createPromptVersion at h
  split at h
  · exact absurd h (by simp)
  · next hval =>
    have hu : validatePromptExists s pid (some u) = .ok () := by
      rw [hval]
    injection h with h'
    injection h' with h1 h2
    have hnext : (if (b.activePrompt == some true) = true then
        deactivateOtherVersions s pid none (some u) else s).nextId = s.nextId := by
      split <;> rfl
    refine ⟨hu, ?_, ?_, ?_, ?_, ?_, ?_⟩
    · rw [← h1, hnext]
    · rw [← h2]
      show (if (b.activePrompt == some true) = true then
        deactivateOtherVersions s pid none (some u) else s).users = s.users
      split <;> rfl
    · rw [← h2]
      show (if (b.activePrompt == some true) = true then
        deactivateOtherVersions s pid none (some u) else s).projects = s.projects
      split <;> rfl
    · rw [← h2]
      show (if (b.activePrompt == some true) = true then
        deactivateOtherVersions s pid none (some u) else s).prompts = s.prompts
      split <;> rfl
    · rw [← h2, ← h1, hnext]
    · rw [← h2]
      show (if (b.activePrompt == some true) = true then
        deactivateOtherVersions s pid none (some u) else s).nextId + 1 = s.nextId + 1
      rw [hnext]

theorem updateVersionDoc_ok {s1 : Store} {vid u : Nat} {ub : UpdateVersionBody}
    {r : Version} {s' : Store}
    (h : updateVersionDoc s1 vid u ub = .ok (r, s')) :
    ∃ v1, s1.versions.find? (fun v => v.id == vid && v.userId == u) = some v1 ∧
      r = applyVersionUpdate ub v1 ∧
      s' = { s1 with versions := updateFirst (fun v => v.id == vid && v.userId == u) (applyVersionUpdate ub) s1.versions } := by
  unfold updateVersionDoc at h
  split at h
  · split at h
    · exact absurd h (by simp)
    · next v1 hfind1 =>
      injection h with h'
      injection h' with h1 h2
      exact ⟨v1, hfind1, h1.symm, h2.symm⟩
  · exact absurd h (by simp)

theorem updatePromptVersion_ok {s : Store} {vid u : Nat} {ub : UpdateVersionBody}
    {r : Version} {s' : Store}
    (h : updatePromptVersion s vid u ub = .ok (r, s')) :
    ∃ ex, s.versions.find? (fun v => v.id == vid && v.userId == u) = some ex ∧
      updateVersionDoc
        (if ub.activePrompt == some true then
          deactivateOtherVersions s ex.promptId (some vid) (some u)
         else s) vid u ub = .ok (r, s') := by
  unfold updatePromptVersion at h
  split at h
  · exact absurd h (by simp)
  · next ex hfind =>
    split at h
    · exact absurd h (by simp)
    · exact ⟨ex, hfind, h⟩

theorem deletePromptVersion_ok {s : Store} {vid u : Nat} {r : Version} {s' : Store}
    (h : deletePromptVersion s vid u = .ok (r, s')) :
    ∃ v, s.versions.find? (fun w => w.id == vid && w.userId == u) = some v ∧
      r = { v with isActive := false } ∧
      s' = { s with versions := updateFirst (fun w => w.id == vid && w.userId == u) (fun x => { x with isActive := false }) s.versions } := by
  unfold deletePromptVersion at h
  split at h
  · exact absurd h (by simp)
  · next v hfind =>
    injection h with h'
    injection h' with h1 h2
    exact ⟨v, hfind, h1.symm, h2.symm⟩

/-! ## The inductive invariant of reachable stores -/

/-- query `{promptId: pid, activePrompt: true}`. -/
def activeOfPrompt (pid : Nat) (v : Version) : Bool :=
  v.promptId == pid && v.activePrompt

/-- query `{promptId: pid}`. -/
def ofPrompt (pid : Nat) (v : Version) : Bool := v.promptId == pid

/-- a version's (sequenceLabel, displayName) pair. -/
def labelPair (v : Version) : String × String := (v.version, v.versionName)

/-- `[("v1","Version 1"), …, ("vn","Version n")]`. -/
def labelSeq (n : Nat) : List (String × String) :=
  (List.range n).map (fun i => ("v" ++ toString (i + 1), "Version " ++ toString (i + 1)))

/-- Everything that holds of every store the engine can reach and that
the claims need: ids are below the counter and duplicate-free, every
version's owner is the owner of its (unique) prompt, each prompt has at
most one version flagged `activePrompt` (soft-deleted or not), and the
versions of each prompt carry the labels v1..vN in creation order. -/
structure GoodState (s : Store) : Prop where
  promptIdsLt : ∀ p ∈ s.prompts, p.id < s.nextId
  versionIdsLt : ∀ v ∈ s.versions, v.id < s.nextId
  promptIdsNodup : (s.prompts.map Prompt.id).Nodup
  versionIdsNodup : (s.versions.map Version.id).Nodup
  linked : ∀ v ∈ s.versions, ∃ p ∈ s.prompts, p.id = v.promptId ∧ p.userId = v.userId
  uniqueActive : ∀ pid : Nat, s.versions.countP (activeOfPrompt pid) ≤ 1
  numbering : ∀ pid : Nat, (s.versions.filter (ofPrompt pid)).map labelPair
      = labelSeq ((s.versions.filter (ofPrompt pid)).length)

/-- All versions of one prompt belong to the prompt's owner. -/
theorem userId_of_promptId {s : Store} (hs : GoodState s) {P : Prompt}
    (hP : P ∈ s.prompts) :
    ∀ v ∈ s.versions, v.promptId = P.id → v.userId = P.userId := by
  intro v hv hpid
  obtain ⟨Q, hQ, hQid, hQuid⟩ := hs.linked v hv
  have hQP : Q = P := eq_of_nodup_key hs.promptIdsNodup hQ hP (by rw [hQid, hpid])
  rw [← hQuid, hQP]

/-- A state change that leaves prompts and versions alone (and does not
decrease the id counter) preserves the invariant. -/
theorem goodState_frame {s s' : Store} (hs : GoodState s)
    (hp : s'.prompts = s.prompts) (hv : s'.versions = s.versions)
    (hn : s.nextId ≤ s'.nextId) : GoodState s' := by
  refine ⟨?_, ?_, ?_, ?_, ?_, ?_, ?_⟩
  · intro p hmem; rw [hp] at hmem
    exact lt_of_lt_of_le (hs.promptIdsLt p hmem) hn
  · intro v hmem; rw [hv] at hmem
    exact lt_of_lt_of_le (hs.versionIdsLt v hmem) hn
  · rw [hp]; exact hs.promptIdsNodup
  · rw [hv]; exact hs.versionIdsNodup
  · intro v hmem; rw [hv] at hmem; rw [hp]; exact hs.linked v hmem
  · intro pid; rw [hv]; exact hs.uniqueActive pid
  · intro pid; rw [hv]; exact hs.numbering pid

/-- Reshaping the prompt list with a per-document update that keeps
`id` and `userId` preserves the invariant. -/
theorem goodState_updateFirst_prompts {s : Store} (hs : GoodState s)
    (q : Prompt → Bool) (f : Prompt → Prompt)
    (hid : ∀ p, (f p).id = p.id) (huid : ∀ p, (f p).userId = p.userId) :
    GoodState { s with prompts := updateFirst q f s.prompts } := by
  refine ⟨?_, hs.versionIdsLt, ?_, hs.versionIdsNodup, ?_,
    hs.uniqueActive, hs.numbering⟩
  · intro p hmem
    rcases mem_updateFirst hmem with h | ⟨x, hx, _, hpx⟩
    · exact hs.promptIdsLt p h
    · rw [hpx, hid]; exact hs.promptIdsLt x hx
  · show ((updateFirst q f s.prompts).map Prompt.id).Nodup
    rw [map_updateFirst Prompt.id hid]; exact hs.promptIdsNodup
  · intro v hv
    obtain ⟨P, hP, hPid, hPuid⟩ := hs.linked v hv
    obtain ⟨y, hy, hyP⟩ := updateFirst_surj (f := f) (q := q) hP
    refine ⟨y, hy, ?_, ?_⟩
    · rcases hyP with h | h
      · rw [h, hPid]
      · rw [h, hid, hPid]
    · rcases hyP with h | h
      · rw [h, hPuid]
      · rw [h, huid, hPuid]

/-- Appending a freshly-numbered prompt preserves the invariant. -/
theorem goodState_append_prompt {s : Store} (hs : GoodState s)
    {newP : Prompt} (hfresh : newP.id = s.nextId) :
    GoodState { s with prompts := s.prompts ++ [newP], nextId := s.nextId + 1 } := by
  refine ⟨?_, ?_, ?_, hs.versionIdsNodup, ?_, hs.uniqueActive, hs.numbering⟩
  · intro p hmem
    rcases List.mem_append.mp hmem with h | h
    · exact lt_trans (hs.promptIdsLt p h) (Nat.lt_succ_self _)
    · rw [List.mem_singleton.mp h, hfresh]; exact Nat.lt_succ_self _
  · intro v hmem
    exact lt_trans (hs.versionIdsLt v hmem) (Nat.lt_succ_self _)
  · show ((s.prompts ++ [newP]).map Prompt.id).Nodup
    rw [List.map_append]
    refine nodup_append_singleton hs.promptIdsNodup ?_
    intro hmem
    obtain ⟨p, hp, hpid⟩ := List.mem_map.mp hmem
    exact absurd (hpid ▸ hs.promptIdsLt p hp) (by rw [hfresh]; exact lt_irrefl _)
  · intro v hv
    obtain ⟨P, hP, hPid, hPuid⟩ := hs.linked v hv
    exact ⟨P, List.mem_append.mpr (Or.inl hP), hPid, hPuid⟩

theorem map_map_of_pres {l : List α} (g : α → α) (key : α → β)
    (h : ∀ x, key (g x) = key x) : (l.map g).map key = l.map key := by
  rw [List.map_map]
  exact List.map_congr_left (fun x _ => h x)

/-- `labelSeq` grows by one label at the end. -/
theorem labelSeq_succ (n : Nat) :
    labelSeq (n + 1)
      = labelSeq n ++ [("v" ++ toString (n + 1), "Version " ++ toString (n + 1))] := by
  simp [labelSeq, List.range_succ]

theorem deactivateDoc_id (pid : Nat) (ex uid : Option Nat) (v : Version) :
    (deactivateDoc pid ex uid v).id = v.id := by
  unfold deactivateDoc; split <;> rfl

theorem deactivateDoc_userId (pid : Nat) (ex uid : Option Nat) (v : Version) :
    (deactivateDoc pid ex uid v).userId = v.userId := by
  unfold deactivateDoc; split <;> rfl

theorem deactivateDoc_promptId (pid : Nat) (ex uid : Option Nat) (v : Version) :
    (deactivateDoc pid ex uid v).promptId = v.promptId := by
  unfold deactivateDoc; split <;> rfl

theorem deactivateDoc_version (pid : Nat) (ex uid : Option Nat) (v : Version) :
    (deactivateDoc pid ex uid v).version = v.version := by
  unfold deactivateDoc; split <;> rfl

theorem deactivateDoc_versionName (pid : Nat) (ex uid : Option Nat) (v : Version) :
    (deactivateDoc pid ex uid v).versionName = v.versionName := by
  unfold deactivateDoc; split <;> rfl

theorem deactivateDoc_isActive (pid : Nat) (ex uid : Option Nat) (v : Version) :
    (deactivateDoc pid ex uid v).isActive = v.isActive := by
  unfold deactivateDoc; split <;> rfl

theorem deactivateDoc_active_mono (pid : Nat) (ex uid : Option Nat) (v : Version)
    (h : (deactivateDoc pid ex uid v).activePrompt = true) :
    v.activePrompt = true := by
  unfold deactivateDoc at h
  revert h; split <;> intro h
  · exact absurd h (by simp)
  · exact h

theorem deactivateDoc_eq_self {pid : Nat} {ex uid : Option Nat} {v : Version}
    (h : ¬(v.promptId == pid && v.activePrompt &&
      optEq uid v.userId && optNe ex v.id) = true) :
    deactivateDoc pid ex uid v = v := by
  unfold deactivateDoc; rw [if_neg h]

theorem deactivateDoc_cleared {pid : Nat} {ex uid : Option Nat} {v : Version}
    (h : (v.promptId == pid && v.activePrompt &&
      optEq uid v.userId && optNe ex v.id) = true) :
    (deactivateDoc pid ex uid v).activePrompt = false := by
  unfold deactivateDoc; rw [if_pos h]

/-- Deactivating other versions (an `updateMany` clearing
`activePrompt`) preserves the invariant. -/
theorem goodState_deactivate {s : Store} (hs : GoodState s)
    (pid : Nat) (ex : Option Nat) (uid : Option Nat) :
    GoodState (deactivateOtherVersions s pid ex uid) := by
  simp only [deactivateOtherVersions]
  set g := deactivateDoc pid ex uid with hg
  have hgid : ∀ v, (g v).id = v.id := deactivateDoc_id pid ex uid
  have hguid : ∀ v, (g v).userId = v.userId := deactivateDoc_userId pid ex uid
  have hgpid : ∀ v, (g v).promptId = v.promptId := deactivateDoc_promptId pid ex uid
  have hgver : ∀ v, (g v).version = v.version := deactivateDoc_version pid ex uid
  have hgname : ∀ v, (g v).versionName = v.versionName :=
    deactivateDoc_versionName pid ex uid
  have hgact : ∀ v, (g v).activePrompt = true → v.activePrompt = true :=
    deactivateDoc_active_mono pid ex uid
  refine ⟨hs.promptIdsLt, ?_, hs.promptIdsNodup, ?_, ?_, ?_, ?_⟩
  · intro v hv
    obtain ⟨x, hx, hgx⟩ := List.mem_map.mp hv
    rw [← hgx, hgid]
    exact hs.versionIdsLt x hx
  · show ((s.versions.map g).map Version.id).Nodup
    rw [map_map_of_pres g Version.id hgid]
    exact hs.versionIdsNodup
  · intro v hv
    obtain ⟨x, hx, hgx⟩ := List.mem_map.mp hv
    obtain ⟨P, hP, hPid, hPuid⟩ := hs.linked x hx
    exact ⟨P, hP, by rw [← hgx, hgpid, hPid], by rw [← hgx, hguid, hPuid]⟩
  · intro pid'
    refine le_trans (countP_map_le g (activeOfPrompt pid') ?_) (hs.uniqueActive pid')
    intro x _ hx
    simp only [activeOfPrompt, hgpid, Bool.and_eq_true] at hx ⊢
    exact ⟨hx.1, hgact x hx.2⟩
  · intro pid'
    have hmap := filter_map_map (l := s.versions) g (ofPrompt pid') labelPair
      (fun x _ => by simp [ofPrompt, hgpid])
      (fun x _ _ => by simp [labelPair, hgver, hgname])
    have hlen : ((s.versions.map g).filter (ofPrompt pid')).length
        = (s.versions.filter (ofPrompt pid')).length := by
      have := congrArg List.length hmap
      simpa using this
    rw [hmap, hlen]
    exact hs.numbering pid'

/-- Updating one version in place with a per-document update that keeps
id, owner, prompt and labels preserves the invariant, provided the
single-active bound is re-established for the rewritten list. -/
theorem goodState_updateFirst_versions {s : Store} (hs : GoodState s)
    (q : Version → Bool) (f : Version → Version)
    (hid : ∀ v, (f v).id = v.id)
    (huid : ∀ v, (f v).userId = v.userId)
    (hpid : ∀ v, (f v).promptId = v.promptId)
    (hver : ∀ v, (f v).version = v.version)
    (hname : ∀ v, (f v).versionName = v.versionName)
    (huniq : ∀ pid : Nat,
      (updateFirst q f s.versions).countP (activeOfPrompt pid) ≤ 1) :
    GoodState { s with versions := updateFirst q f s.versions } := by
  refine ⟨hs.promptIdsLt, ?_, hs.promptIdsNodup, ?_, ?_, huniq, ?_⟩
  · intro v hv
    rcases mem_updateFirst hv with h | ⟨x, hx, _, hfx⟩
    · exact hs.versionIdsLt v h
    · rw [hfx, hid]; exact hs.versionIdsLt x hx
  · show ((updateFirst q f s.versions).map Version.id).Nodup
    rw [map_updateFirst Version.id hid]
    exact hs.versionIdsNodup
  · intro v hv
    rcases mem_updateFirst hv with h | ⟨x, hx, _, hfx⟩
    · exact hs.linked v h
    · obtain ⟨P, hP, hPid, hPuid⟩ := hs.linked x hx
      exact ⟨P, hP, by rw [hfx, hpid, hPid], by rw [hfx, huid, hPuid]⟩
  · intro pid'
    have hmap := filter_map_updateFirst (l := s.versions) (q := q) (f := f)
      (ofPrompt pid') labelPair
      (fun x _ => by simp [ofPrompt, hpid])
      (fun x _ _ => by simp [labelPair, hver, hname])
    have hlen : ((updateFirst q f s.versions).filter (ofPrompt pid')).length
        = (s.versions.filter (ofPrompt pid')).length := by
      have := congrArg List.length hmap
      simpa using this
    rw [hmap, hlen]
    exact hs.numbering pid'

/-- Appending a freshly-numbered version whose label continues its
prompt's sequence preserves the invariant, provided no version of that
prompt is still flagged active when the new one is. -/
theorem goodState_append_version {s : Store} (hs : GoodState s)
    {v : Version} (hfresh : v.id = s.nextId)
    (hlink : ∃ p ∈ s.prompts, p.id = v.promptId ∧ p.userId = v.userId)
    (hver : v.version = "v" ++ toString ((s.versions.filter (ofPrompt v.promptId)).length + 1))
    (hname : v.versionName
      = "Version " ++ toString ((s.versions.filter (ofPrompt v.promptId)).length + 1))
    (hact : v.activePrompt = true →
      s.versions.countP (activeOfPrompt v.promptId) = 0) :
    GoodState { s with versions := s.versions ++ [v], nextId := s.nextId + 1 } := by
  refine ⟨?_, ?_, hs.promptIdsNodup, ?_, ?_, ?_, ?_⟩
  · intro p hp
    exact lt_trans (hs.promptIdsLt p hp) (Nat.lt_succ_self _)
  · intro w hw
    rcases List.mem_append.mp hw with h | h
    · exact lt_trans (hs.versionIdsLt w h) (Nat.lt_succ_self _)
    · rw [List.mem_singleton.mp h, hfresh]; exact Nat.lt_succ_self _
  · show ((s.versions ++ [v]).map Version.id).Nodup
    rw [List.map_append]
    refine nodup_append_singleton hs.versionIdsNodup ?_
    intro hmem
    obtain ⟨w, hw, hwid⟩ := List.mem_map.mp hmem
    exact absurd (hwid ▸ hs.versionIdsLt w hw) (by rw [hfresh]; exact lt_irrefl _)
  · intro w hw
    rcases List.mem_append.mp hw with h | h
    · exact hs.linked w h
    · rw [List.mem_singleton.mp h]; exact hlink
  · intro pid'
    rw [List.countP_append]
    by_cases hpid : v.promptId = pid'
    · by_cases hactv : v.activePrompt
      · have h0 := hact hactv
        rw [← hpid]
        have hbound : List.countP (activeOfPrompt v.promptId) [v] ≤ 1 := by
          simp only [List.countP_cons, List.countP_nil]
          split <;> omega
        omega
      · have : List.countP (activeOfPrompt pid') [v] = 0 := by
          simp only [List.countP_cons, List.countP_nil, activeOfPrompt]
          rw [if_neg (by simp [hactv])]
        rw [this]
        have := hs.uniqueActive pid'
        omega
    · have : List.countP (activeOfPrompt pid') [v] = 0 := by
        simp only [List.countP_cons, List.countP_nil, activeOfPrompt]
        rw [if_neg (by simp [hpid])]
      rw [this]
      have := hs.uniqueActive pid'
      omega
  · intro pid'
    rw [List.filter_append]
    by_cases hpid : v.promptId = pid'
    · have hv : (List.filter (ofPrompt pid') [v]) = [v] := by
        simp [ofPrompt, hpid]
      rw [hv, List.map_append, List.length_append]
      simp only [List.map_cons, List.map_nil, List.length_cons, List.length_nil]
      rw [hs.numbering pid', labelSeq_succ]
      congr 2
      simp [labelPair, hver, hname, hpid]
    · have hv : (List.filter (ofPrompt pid') [v]) = [] := by
        simp [ofPrompt, hpid]
      rw [hv, List.append_nil]
      exact hs.numbering pid'

/-- createPromptVersion preserves the invariant: when `activePrompt` is
requested, every other flagged version of the prompt is cleared first,
and the new label continues the prompt's sequence. -/
theorem goodState_createPromptVersion {s : Store} (hs : GoodState s)
    {u pid : Nat} {b : VersionBody} {r : Version} {s' : Store}
    (h : createPromptVersion s u pid b = .ok (r, s')) : GoodState s' := by
  obtain ⟨hval, hr, husers, hprojects, hprompts, hversions, hnext⟩ :=
    createPromptVersion_ok h
  obtain ⟨P, hPfind, hPact⟩ := validatePromptExists_ok hval
  obtain ⟨hPmem, hPid, hPuid⟩ := find?_prompt_owner hPfind
  have hown : ∀ w ∈ s.versions, w.promptId = pid → w.userId = u := by
    intro w hw hpw
    have huw := userId_of_promptId hs hPmem w hw (by rw [hpw, hPid])
    rw [huw, hPuid]
  have hcount : (s.versions.filter
        (fun v => v.promptId == pid && v.userId == u)).length
      = (s.versions.filter (ofPrompt pid)).length := by
    congr 1
    apply List.filter_congr
    intro w hw
    by_cases hpw : w.promptId = pid
    · simp [ofPrompt, hpw, hown w hw hpw]
    · simp [ofPrompt, hpw]
  have hrid : r.id = s.nextId := by rw [hr]
  have hruid : r.userId = u := by rw [hr]
  have hrpid : r.promptId = pid := by rw [hr]
  have hrver : r.version = "v" ++ toString ((s.versions.filter
      (fun v => v.promptId == pid && v.userId == u)).length + 1) := by rw [hr]
  have hrname : r.versionName = "Version " ++ toString ((s.versions.filter
      (fun v => v.promptId == pid && v.userId == u)).length + 1) := by rw [hr]
  have hract : r.activePrompt = b.activePrompt.getD false := by rw [hr]
  by_cases hb : (b.activePrompt == some true) = true
  · -- activation requested: clear first, then append
    rw [if_pos hb] at hversions
    have hg1 : GoodState (deactivateOtherVersions s pid none (some u)) :=
      goodState_deactivate hs pid none (some u)
    have hs1versions : (deactivateOtherVersions s pid none (some u)).versions
        = s.versions.map (deactivateDoc pid none (some u)) := rfl
    have hzero : (deactivateOtherVersions s pid none (some u)).versions.countP
        (activeOfPrompt pid) = 0 := by
      rw [List.countP_eq_zero]
      intro y hy
      rw [hs1versions] at hy
      obtain ⟨x, hx, hgx⟩ := List.mem_map.mp hy
      by_cases hdq : (x.promptId == pid && x.activePrompt &&
          optEq (some u) x.userId && optNe none x.id) = true
      · have hcl := deactivateDoc_cleared hdq
        rw [hgx] at hcl
        simp [activeOfPrompt, hcl]
      · rw [deactivateDoc_eq_self hdq] at hgx
        rw [← hgx]
        intro hax
        apply hdq
        simp only [activeOfPrompt, Bool.and_eq_true, beq_iff_eq] at hax
        simp [optEq, optNe, hax.1, hax.2, hown x hx hax.1]
    have hlen1 : ((deactivateOtherVersions s pid none (some u)).versions.filter
          (ofPrompt pid)).length
        = (s.versions.filter (ofPrompt pid)).length := by
      rw [hs1versions]
      exact length_filter_map_eq _ _
        (fun x _ => by simp [ofPrompt, deactivateDoc_promptId])
    have happ : GoodState { deactivateOtherVersions s pid none (some u) with versions := (deactivateOtherVersions s pid none (some u)).versions ++ [r], nextId := (deactivateOtherVersions s pid none (some u)).nextId + 1 } := by
      refine goodState_append_version hg1 ?_ ?_ ?_ ?_ ?_
      · rw [hrid]; rfl
      · exact ⟨P, hPmem, by rw [hrpid]; exact hPid, by rw [hruid]; exact hPuid⟩
      · rw [hrver, hrpid, hlen1, hcount]
      · rw [hrname, hrpid, hlen1, hcount]
      · intro _
        rw [hrpid]
        exact hzero
    refine goodState_frame happ hprompts hversions (le_of_eq ?_)
    rw [hnext]; rfl
  · -- no activation: plain append
    rw [if_neg hb] at hversions
    have hract0 : r.activePrompt = false := by
      rw [hract]
      cases hba : b.activePrompt with
      | none => rfl
      | some tv =>
        cases tv
        · rfl
        · exact absurd (by rw [hba]; rfl) hb
    have happ : GoodState { s with versions := s.versions ++ [r], nextId := s.nextId + 1 } := by
      refine goodState_append_version hs ?_ ?_ ?_ ?_ ?_
      · rw [hrid]
      · exact ⟨P, hPmem, by rw [hrpid]; exact hPid, by rw [hruid]; exact hPuid⟩
      · rw [hrver, hrpid, hcount]
      · rw [hrname, hrpid, hcount]
      · intro hx
        rw [hract0] at hx
        cases hx
    refine goodState_frame happ hprompts hversions (le_of_eq hnext.symm)

/-- updatePromptVersion preserves the invariant: activating a version
clears every other flagged version of its prompt first. -/
theorem goodState_updatePromptVersion {s : Store} (hs : GoodState s)
    {vid u : Nat} {ub : UpdateVersionBody} {r : Version} {s' : Store}
    (h : updatePromptVersion s vid u ub = .ok (r, s')) : GoodState s' := by
  obtain ⟨ex, hfind, hdoc⟩ := updatePromptVersion_ok h
  obtain ⟨hexmem, hexid, hexuid⟩ := find?_version_owner hfind
  by_cases hb : (ub.activePrompt == some true) = true
  · -- activation path
    rw [if_pos hb] at hdoc
    obtain ⟨v1, hfind1, hr, hs'⟩ := updateVersionDoc_ok hdoc
    have hg1 : GoodState (deactivateOtherVersions s ex.promptId (some vid) (some u)) :=
      goodState_deactivate hs ex.promptId (some vid) (some u)
    have hs1versions : (deactivateOtherVersions s ex.promptId (some vid) (some u)).versions
        = s.versions.map (deactivateDoc ex.promptId (some vid) (some u)) := rfl
    -- versions of ex's prompt are owned by u
    obtain ⟨P, hPmem, hPid, hPuid⟩ := hs.linked ex hexmem
    have hown : ∀ w ∈ s.versions, w.promptId = ex.promptId → w.userId = u := by
      intro w hw hpw
      have huw := userId_of_promptId hs hPmem w hw (by rw [hpw, hPid])
      rw [huw, hPuid, hexuid]
    -- after clearing, a version of ex's prompt that is still flagged is ex itself
    have hstill : ∀ y ∈ (deactivateOtherVersions s ex.promptId (some vid) (some u)).versions,
        activeOfPrompt ex.promptId y = true → y.id = vid := by
      intro y hy hay
      rw [hs1versions] at hy
      obtain ⟨x, hx, hgx⟩ := List.mem_map.mp hy
      by_cases hdq : (x.promptId == ex.promptId && x.activePrompt &&
          optEq (some u) x.userId && optNe (some vid) x.id) = true
      · have hcl := deactivateDoc_cleared hdq
        rw [hgx] at hcl
        rw [activeOfPrompt, hcl] at hay
        simp at hay
      · rw [deactivateDoc_eq_self hdq] at hgx
        rw [← hgx] at hay ⊢
        simp only [activeOfPrompt, Bool.and_eq_true, beq_iff_eq] at hay
        by_contra hne
        apply hdq
        simp [optEq, optNe, hay.1, hay.2, hown x hx hay.1, hne]
    rw [hs']
    apply goodState_updateFirst_versions hg1 _ _ (applyVersionUpdate_id ub)
      (applyVersionUpdate_userId ub) (applyVersionUpdate_promptId ub)
      (applyVersionUpdate_version ub) (applyVersionUpdate_versionName ub)
    intro pid
    by_cases hpid : ex.promptId = pid
    · -- the target prompt: at most the updated doc carries the flag
      refine countP_le_one_of_key Version.id vid ?_ ?_
      · rw [map_updateFirst Version.id (applyVersionUpdate_id ub)]
        exact hg1.versionIdsNodup
      · intro y hy hay
        rcases mem_updateFirst hy with hy1 | ⟨x, hx, hqx, hyx⟩
        · exact hstill y hy1 (by rw [hpid]; exact hay)
        · rw [hyx, applyVersionUpdate_id]
          simp only [Bool.and_eq_true, beq_iff_eq] at hqx
          exact hqx.1
    · -- other prompts are untouched
      rw [countP_updateFirst_eq]
      · refine le_trans ?_ (hs.uniqueActive pid)
        rw [hs1versions]
        refine countP_map_le _ _ ?_
        intro x _ hx
        simp only [activeOfPrompt, Bool.and_eq_true] at hx ⊢
        rw [deactivateDoc_promptId] at hx
        exact ⟨hx.1, deactivateDoc_active_mono _ _ _ x hx.2⟩
      · -- any doc matching the update filter is ex, whose prompt is not pid
        intro y hy hqy
        simp only [Bool.and_eq_true, beq_iff_eq] at hqy
        have hyex : y = ex := by
          rw [hs1versions] at hy
          obtain ⟨x, hx, hgx⟩ := List.mem_map.mp hy
          have hxid : x.id = vid := by
            rw [← deactivateDoc_id ex.promptId (some vid) (some u) x, hgx]
            exact hqy.1
          have hxex : x = ex :=
            eq_of_nodup_key hs.versionIdsNodup hx hexmem (by rw [hxid, hexid])
          rw [← hgx, hxex]
          apply deactivateDoc_eq_self
          simp [optNe, hexid]
        have hypid : y.promptId ≠ pid := by rw [hyex]; exact hpid
        simp only [activeOfPrompt]
        rw [applyVersionUpdate_promptId]
        have hfalse : (y.promptId == pid) = false := by
          simp [hypid]
        rw [hfalse]
        simp
  · -- no activation requested: the flag never turns on
    rw [if_neg hb] at hdoc
    obtain ⟨v1, hfind1, hr, hs'⟩ := updateVersionDoc_ok hdoc
    rw [hs']
    apply goodState_updateFirst_versions hs _ _ (applyVersionUpdate_id ub)
      (applyVersionUpdate_userId ub) (applyVersionUpdate_promptId ub)
      (applyVersionUpdate_version ub) (applyVersionUpdate_versionName ub)
    intro pid
    refine le_trans (countP_updateFirst_le _ ?_) (hs.uniqueActive pid)
    intro x _ hx
    simp only [activeOfPrompt, Bool.and_eq_true] at hx ⊢
    rw [applyVersionUpdate_promptId] at hx
    refine ⟨hx.1, ?_⟩
    have hxact : (applyVersionUpdate ub x).activePrompt
        = ub.activePrompt.getD x.activePrompt := rfl
    rw [hxact] at hx
    cases hub : ub.activePrompt with
    | none => rw [hub] at hx; exact hx.2
    | some tv =>
      cases tv
      · rw [hub] at hx
        exact absurd hx.2 (by simp)
      · exact absurd (by rw [hub]; rfl) hb

/-- deletePromptVersion preserves the invariant: it only clears the
soft-delete flag, which the invariant does not mention. -/
theorem goodState_deletePromptVersion {s : Store} (hs : GoodState s)
    {vid u : Nat} {r : Version} {s' : Store}
    (h : deletePromptVersion s vid u = .ok (r, s')) : GoodState s' := by
  obtain ⟨v, hfind, hr, hs'⟩ := deletePromptVersion_ok h
  rw [hs']
  apply goodState_updateFirst_versions hs (fun w => w.id == vid && w.userId == u)
    (fun x => { x with isActive := false }) (fun _ => rfl) (fun _ => rfl)
    (fun _ => rfl) (fun _ => rfl) (fun _ => rfl)
  intro pid
  refine le_trans (countP_updateFirst_le _ ?_) (hs.uniqueActive pid)
  intro x _ hx
  exact hx

/-- Every service request preserves the invariant. -/
theorem goodState_applyOp {s : Store} (hs : GoodState s) (op : Op) :
    GoodState (applyOp s op) := by
  cases op with
  | createProject u b =>
    exact goodState_frame hs rfl rfl (Nat.le_succ _)
  | updateProject pid u ub =>
    show GoodState (match updateProject s pid u ub with
      | .ok (_, s') => s' | .error _ => s)
    cases hres : updateProject s pid u ub with
    | error e => exact hs
    | ok p =>
      obtain ⟨a, s'⟩ := p
      obtain ⟨x, _, _, hs'⟩ := updateProject_ok hres
      rw [hs']
      exact goodState_frame hs rfl rfl le_rfl
  | deleteProject pid u =>
    show GoodState (match deleteProject s pid u with
      | .ok (_, s') => s' | .error _ => s)
    cases hres : deleteProject s pid u with
    | error e => exact hs
    | ok p =>
      obtain ⟨a, s'⟩ := p
      obtain ⟨x, _, _, hs'⟩ := deleteProject_ok hres
      rw [hs']
      exact goodState_frame hs rfl rfl le_rfl
  | createPrompt u pid b =>
    show GoodState (match createPrompt s u pid b with
      | .ok (_, s') => s' | .error _ => s)
    cases hres : createPrompt s u pid b with
    | error e => exact hs
    | ok p =>
      obtain ⟨a, s'⟩ := p
      obtain ⟨hr, hs'⟩ := createPrompt_ok hres
      rw [hs']
      exact goodState_append_prompt hs (by rw [hr])
  | updatePrompt pid u ub =>
    show GoodState (match updatePrompt s pid u ub with
      | .ok (_, s') => s' | .error _ => s)
    cases hres : updatePrompt s pid u ub with
    | error e => exact hs
    | ok p =>
      obtain ⟨a, s'⟩ := p
      obtain ⟨x, _, _, hs'⟩ := updatePrompt_ok hres
      rw [hs']
      exact goodState_updateFirst_prompts hs _ _
        (applyPromptUpdate_id ub) (applyPromptUpdate_userId ub)
  | deletePrompt pid u =>
    show GoodState (match deletePrompt s pid u with
      | .ok (_, s') => s' | .error _ => s)
    cases hres : deletePrompt s pid u with
    | error e => exact hs
    | ok p =>
      obtain ⟨a, s'⟩ := p
      obtain ⟨x, _, _, hs'⟩ := deletePrompt_ok hres
      rw [hs']
      exact goodState_updateFirst_prompts hs (fun p => p.id == pid && p.userId == u)
        (fun x => { x with isActive := false }) (fun _ => rfl) (fun _ => rfl)
  | createPromptVersion u pid b =>
    show GoodState (match createPromptVersion s u pid b with
      | .ok (_, s') => s' | .error _ => s)
    cases hres : createPromptVersion s u pid b with
    | error e => exact hs
    | ok p =>
      obtain ⟨a, s'⟩ := p
      exact goodState_createPromptVersion hs hres
  | updatePromptVersion vid u ub =>
    show GoodState (match updatePromptVersion s vid u ub with
      | .ok (_, s') => s'
      | .error _ => updatePromptVersionFailState s vid u ub)
    cases hres : updatePromptVersion s vid u ub with
    | error e =>
      show GoodState (updatePromptVersionFailState s vid u ub)
      unfold updatePromptVersionFailState
      split
      · exact hs
      · split
        · exact goodState_deactivate hs _ (some vid) (some u)
        · exact hs
    | ok p =>
      obtain ⟨a, s'⟩ := p
      exact goodState_updatePromptVersion hs hres
  | deletePromptVersion vid u =>
    show GoodState (match deletePromptVersion s vid u with
      | .ok (_, s') => s' | .error _ => s)
    cases hres : deletePromptVersion s vid u with
    | error e => exact hs
    | ok p =>
      obtain ⟨a, s'⟩ := p
      exact goodState_deletePromptVersion hs hres

/-- The empty store satisfies the invariant. -/
theorem goodState_empty : GoodState Store.empty := by
  refine ⟨?_, ?_, ?_, ?_, ?_, ?_, ?_⟩ <;> simp [Store.empty, labelSeq]

/-- Every reachable store satisfies the invariant. -/
theorem goodState_run (ops : List Op) : GoodState (run ops) := by
  suffices hgen : ∀ s : Store, GoodState s → GoodState (ops.foldl applyOp s) by
    exact hgen Store.empty goodState_empty
  induction ops with
  | nil => intro s hs; exact hs
  | cons op rest ih =>
    intro s hs
    exact ih _ (goodState_applyOp hs op)

/-- When a prompt lookup scoped to owner `u` succeeds in a reachable
store, every version of that prompt belongs to `u`, so the owner-scoped
version count used for numbering equals the per-prompt count. -/
theorem count_owner_eq {s : Store} (hs : GoodState s) {u pid : Nat} {P : Prompt}
    (hPfind : s.prompts.find? (fun p => p.id == pid && optEq (some u) p.userId)
      = some P) :
    (s.versions.filter (fun v => v.promptId == pid && v.userId == u)).length
      = (s.versions.filter (ofPrompt pid)).length := by
  obtain ⟨hPmem, hPid, hPuid⟩ := find?_prompt_owner hPfind
  congr 1
  apply List.filter_congr
  intro w hw
  by_cases hpw : w.promptId = pid
  · have huw := userId_of_promptId hs hPmem w hw (by rw [hpw, hPid])
    simp [ofPrompt, hpw, huw, hPuid]
  · simp [ofPrompt, hpw]

/-- Two distinct members both matching a predicate force a count of at
least two. -/
theorem countP_pair_le {l : List α} {x y : α} {r : α → Bool}
    (hx : x ∈ l) (hy : y ∈ l) (hxy : x ≠ y)
    (hrx : r x = true) (hry : r y = true) : 2 ≤ l.countP r := by
  induction l with
  | nil => simp at hx
  | cons a as ih =>
    rw [List.countP_cons]
    rcases List.mem_cons.mp hx with hax | hx'
    · rcases List.mem_cons.mp hy with hay | hy'
      · exact absurd (hax.trans hay.symm) hxy
      · have h1 : 0 < as.countP r := List.countP_pos_iff.mpr ⟨y, hy', hry⟩
        rw [if_pos (hax ▸ hrx)]
        omega
    · rcases List.mem_cons.mp hy with hay | hy'
      · have h1 : 0 < as.countP r := List.countP_pos_iff.mpr ⟨x, hx', hrx⟩
        rw [if_pos (hay ▸ hry)]
        omega
      · have h2 := ih hx' hy'
        omega

/-- The updated image of the first match stays in the list. -/
theorem updateFirst_first_match_mem {l : List α} {q : α → Bool} {f : α → α}
    {v : α} (h : l.find? q = some v) : f v ∈ updateFirst q f l := by
  induction l with
  | nil => simp at h
  | cons a as ih =>
    by_cases hq : q a
    · rw [List.find?_cons_of_pos _ hq] at h
      injection h with h
      simp only [updateFirst, hq, if_true]
      exact h ▸ List.mem_cons_self _ _
    · rw [List.find?_cons_of_neg _ hq] at h
      simp only [updateFirst, hq, if_false]
      exact List.mem_cons_of_mem a (ih h)

/-- Whether a service read succeeded. -/
def isOk : Except SvcError α → Bool
  | .ok _ => true
  | .error _ => false

/-! ## C1 — the single-active-version invariant -/

def c1ops : List Op :=
  [.createProject 1 ⟨"P", none⟩, .createPrompt 1 0 ⟨"pr", none⟩,
   .createPromptVersion 1 1 ⟨"t1", some true, none⟩]

def c1body : VersionBody := ⟨"t2", some true, none⟩

def c1newv : Version := ⟨3, 1, 1, "t2", "v2", "Version 2", true, true⟩

def c1post : Store :=
  ⟨[], [⟨0, 1, "P", true⟩], [⟨1, 1, 0, "pr", true⟩],
   [⟨2, 1, 1, "t1", "v1", "Version 1", false, true⟩, c1newv], 4⟩

/-- C1: in every store reachable by running the services' mutating
operations sequentially from the empty store, at most one version of
any prompt has both `isActiveVersion` (`activePrompt`) and `isActive`
true; moreover, when createPromptVersion succeeds with makeActive
(`activePrompt = some true`), every other version of that prompt
carries `isActiveVersion = false` in the resulting store — they were
deactivated before the new active version was persisted. -/
theorem c1_single_active_version (ops : List Op) (pid : Nat) :
    (((run ops).versions.filter
        (fun v => v.promptId == pid && v.activePrompt && v.isActive)).length ≤ 1)
    ∧ (∀ (u : Nat) (b : VersionBody) (r : Version) (s' : Store),
        b.activePrompt = some true →
        createPromptVersion (run ops) u pid b = .ok (r, s') →
        ∀ w ∈ s'.versions, w.promptId = pid → w.id ≠ r.id →
          w.activePrompt = false) := by
  have hg := goodState_run ops
  constructor
  · rw [← List.countP_eq_length_filter]
    refine le_trans (List.countP_mono_left ?_) (hg.uniqueActive pid)
    intro v _ hv
    simp only [Bool.and_eq_true] at hv
    simp only [activeOfPrompt, Bool.and_eq_true]
    exact ⟨hv.1.1, hv.1.2⟩
  · intro u b r s' hb hok w hw hwpid hwid
    have hg' : GoodState s' := goodState_createPromptVersion hg hok
    obtain ⟨hval, hr, husers, hprojects, hprompts, hversions, hnext⟩ :=
      createPromptVersion_ok hok
    have hract : r.activePrompt = true := by
      rw [hr]
      show b.activePrompt.getD false = true
      rw [hb]
      rfl
    have hrpid : r.promptId = pid := by rw [hr]
    have hrmem : r ∈ s'.versions := by
      rw [hversions]
      exact List.mem_append.mpr (Or.inr (List.mem_singleton_self r))
    by_contra hwact
    have hwact' : w.activePrompt = true := by
      cases hwa : w.activePrompt
      · exact absurd hwa hwact
      · rfl
    have hwr : w ≠ r := fun heq => hwid (congrArg Version.id heq)
    have h2 : 2 ≤ s'.versions.countP (activeOfPrompt pid) := by
      refine countP_pair_le hw hrmem hwr ?_ ?_
      · simp [activeOfPrompt, hwpid, hwact']
      · simp [activeOfPrompt, hrpid, hract]
    have h1 := hg'.uniqueActive pid
    omega

/-- C1 witness: after [create project, create prompt, create active v1],
creating an active v2 succeeds, the reachable-state bound holds, and the
formerly-active v1 is inactive in the post store. -/
theorem c1_single_active_version_witness :
    createPromptVersion (run c1ops) 1 1 c1body = Except.ok (c1newv, c1post)
    ∧ (((run c1ops).versions.filter
        (fun v => v.promptId == 1 && v.activePrompt && v.isActive)).length ≤ 1)
    ∧ (⟨2, 1, 1, "t1", "v1", "Version 1", false, true⟩ : Version).activePrompt
        = false := by
  refine ⟨by decide, (c1_single_active_version c1ops 1).1, ?_⟩
  exact (c1_single_active_version c1ops 1).2 1 c1body c1newv c1post rfl (by decide)
    ⟨2, 1, 1, "t1", "v1", "Version 1", false, true⟩ (by decide) rfl (by decide)

/-! ## C4 — monotonic numbering -/

def c4ops : List Op :=
  [.createProject 1 ⟨"P", none⟩, .createPrompt 1 0 ⟨"pr", none⟩,
   .createPromptVersion 1 1 ⟨"t1", none, none⟩,
   .createPromptVersion 1 1 ⟨"t2", none, none⟩,
   .deletePromptVersion 2 1]

def c4newv : Version := ⟨4, 1, 1, "t3", "v3", "Version 3", false, true⟩

def c4post : Store :=
  ⟨[], [⟨0, 1, "P", true⟩], [⟨1, 1, 0, "pr", true⟩],
   [⟨2, 1, 1, "t1", "v1", "Version 1", false, false⟩,
    ⟨3, 1, 1, "t2", "v2", "Version 2", false, true⟩, c4newv], 5⟩

/-- C4: in every reachable store, the versions of each prompt carry, in
creation order, exactly the labels "v1".."vN" and display names
"Version 1".."Version N" (soft-deleted versions included, so deletions
never renumber anything); and a successful createPromptVersion assigns
the label one past the count of all previously created versions of that
prompt, soft-deleted ones included. -/
theorem c4_monotonic_numbering (ops : List Op) (pid : Nat) :
    (((run ops).versions.filter (ofPrompt pid)).map labelPair
      = labelSeq (((run ops).versions.filter (ofPrompt pid)).length))
    ∧ (∀ (u : Nat) (b : VersionBody) (r : Version) (s' : Store),
        createPromptVersion (run ops) u pid b = .ok (r, s') →
        r.version = "v" ++ toString
          (((run ops).versions.filter (ofPrompt pid)).length + 1)
        ∧ r.versionName = "Version " ++ toString
          (((run ops).versions.filter (ofPrompt pid)).length + 1)) := by
  have hg := goodState_run ops
  refine ⟨hg.numbering pid, ?_⟩
  intro u b r s' hok
  obtain ⟨hval, hr, _⟩ := createPromptVersion_ok hok
  obtain ⟨P, hPfind, _⟩ := validatePromptExists_ok hval
  have hcnt := count_owner_eq hg hPfind
  have hrver : r.version = "v" ++ toString (((run ops).versions.filter
      (fun v => v.promptId == pid && v.userId == u)).length + 1) := by rw [hr]
  have hrname : r.versionName = "Version " ++ toString (((run ops).versions.filter
      (fun v => v.promptId == pid && v.userId == u)).length + 1) := by rw [hr]
  exact ⟨by rw [hrver, hcnt], by rw [hrname, hcnt]⟩

/-- C4 witness: after creating v1, v2 and soft-deleting v1, the next
creation is still labelled "v3" / "Version 3". -/
theorem c4_monotonic_numbering_witness :
    createPromptVersion (run c4ops) 1 1 ⟨"t3", none, none⟩
      = Except.ok (c4newv, c4post)
    ∧ c4newv.version = "v" ++ toString
        (((run c4ops).versions.filter (ofPrompt 1)).length + 1)
    ∧ c4newv.versionName = "Version " ++ toString
        (((run c4ops).versions.filter (ofPrompt 1)).length + 1) := by
  have happ := (c4_monotonic_numbering c4ops 1).2 1 ⟨"t3", none, none⟩
    c4newv c4post (by decide)
  exact ⟨by decide, happ.1, happ.2⟩

theorem length_updateFirst (l : List α) (q : α → Bool) (f : α → α) :
    (updateFirst q f l).length = l.length := by
  induction l with
  | nil => rfl
  | cons x xs ih =>
    simp only [updateFirst]
    by_cases hq : q x
    · rw [if_pos hq]
      simp
    · rw [if_neg hq]
      simp [ih]

/-- `updateFirst` rewrites at most one document: at most one member of
the result was not already present in any superset `L` of the input. -/
theorem countP_not_mem_updateFirst [DecidableEq α] {l L : List α}
    (q : α → Bool) (f : α → α) (hsub : ∀ x ∈ l, x ∈ L) :
    (updateFirst q f l).countP (fun w => decide (w ∉ L)) ≤ 1 := by
  induction l with
  | nil => simp [updateFirst]
  | cons x xs ih =>
    simp only [updateFirst]
    by_cases hq : q x
    · rw [if_pos hq, List.countP_cons]
      have h0 : xs.countP (fun w => decide (w ∉ L)) = 0 := by
        rw [List.countP_eq_zero]
        intro y hy
        simp [hsub y (List.mem_cons_of_mem x hy)]
      rw [h0]
      split <;> omega
    · rw [if_neg hq, List.countP_cons]
      have hx0 : (if (decide (x ∉ L)) = true then 1 else 0) = 0 := by
        rw [if_neg]
        simp [hsub x (List.mem_cons_self x xs)]
      rw [hx0]
      simpa using ih (fun y hy => hsub y (List.mem_cons_of_mem x hy))

/-- The owner-scoped lookup of the version being updated is unaffected
by the deactivation pass (which excludes that version's id). -/
theorem deactivate_find?_self {s : Store} {vid u : Nat} {v : Version} (pid : Nat)
    (hfind : s.versions.find? (fun w => w.id == vid && w.userId == u) = some v)
    (hid : v.id = vid) :
    (deactivateOtherVersions s pid (some vid) (some u)).versions.find?
      (fun w => w.id == vid && w.userId == u) = some v := by
  have hcomp : ((fun w : Version => w.id == vid && w.userId == u)
      ∘ deactivateDoc pid (some vid) (some u))
      = fun w : Version => w.id == vid && w.userId == u := by
    funext x
    simp [Function.comp, deactivateDoc_id, deactivateDoc_userId]
  show (s.versions.map (deactivateDoc pid (some vid) (some u))).find? _ = _
  rw [List.find?_map, hcomp, hfind]
  have hv : deactivateDoc pid (some vid) (some u) v = v := by
    apply deactivateDoc_eq_self
    simp [optNe, hid]
  rw [Option.map_some', hv]

/-! ## C2 — is soft-deletion terminal for activation? -/

def c2ops : List Op :=
  [.createProject 1 ⟨"P", none⟩, .createPrompt 1 0 ⟨"pr", none⟩,
   .createPromptVersion 1 1 ⟨"t1", none, none⟩, .deletePromptVersion 2 1]

/-- C2 counterexample: in the store reached by creating a version and
soft-deleting it, the owner's update with `isActiveVersion = true`
succeeds and the soft-deleted version satisfies `isActiveVersion = true`
again (while still soft-deleted) — updatePromptVersion's lookup does not
filter on `isActive`, so SoftDeleted is not terminal. -/
theorem c2_softdeleted_reactivated :
    ((run c2ops).versions.find? (fun w => w.id == 2)).map Version.isActive
      = some false
    ∧ (okVal (updatePromptVersion (run c2ops) 2 1 ⟨none, some true, none⟩)).map
        (fun r => (r.activePrompt, r.isActive)) = some (true, false) := by decide

/-- C2 amended: updating a soft-deleted version with
`isActiveVersion = true` by its owner succeeds and transitions it back
to `isActiveVersion = true` (it stays soft-deleted until `isActive` is
also updated) — soft-deletion is not terminal with respect to
activation. -/
theorem c2_softdeleted_reactivation_succeeds (s : Store) (vid u : Nat) (v : Version)
    (hfind : s.versions.find? (fun w => w.id == vid && w.userId == u) = some v)
    (hdel : v.isActive = false) :
    (okVal (updatePromptVersion s vid u ⟨none, some true, none⟩)).map
      (fun r => (r.activePrompt, r.isActive, r.id)) = some (true, false, v.id) := by
  obtain ⟨hm, hid, huid⟩ := find?_version_owner hfind
  have hstep : updatePromptVersion s vid u ⟨none, some true, none⟩
      = updateVersionDoc (deactivateOtherVersions s v.promptId (some vid) (some u))
          vid u ⟨none, some true, none⟩ := by
    unfold updatePromptVersion
    rw [hfind]
    rfl
  have hfind1 := deactivate_find?_self v.promptId hfind hid
  rw [hstep]
  unfold updateVersionDoc
  rw [hfind1]
  show some ((applyVersionUpdate ⟨none, some true, none⟩ v).activePrompt,
    (applyVersionUpdate ⟨none, some true, none⟩ v).isActive,
    (applyVersionUpdate ⟨none, some true, none⟩ v).id) = some (true, false, v.id)
  rw [show (applyVersionUpdate ⟨none, some true, none⟩ v).isActive = v.isActive from rfl,
    hdel]
  rfl

/-- C2 witness for the amended claim, at the concrete counterexample
store. -/
theorem c2_softdeleted_reactivation_witness :
    (okVal (updatePromptVersion (run c2ops) 2 1 ⟨none, some true, none⟩)).map
      (fun r => (r.activePrompt, r.isActive, r.id)) = some (true, false, 2) :=
  c2_softdeleted_reactivation_succeeds (run c2ops) 2 1
    ⟨2, 1, 1, "t1", "v1", "Version 1", false, false⟩ (by decide) (by decide)

/-! ## C3 — parent ownership on prompt creation -/

/-- C3: the parent-ownership check is missing.  validateProjectExists
(utils/validation.ts) takes only a projectId and looks the project up by
id alone; promptService.createPrompt passes a userId argument that the
one-parameter function silently drops (its own test file expects
`Project.findOne({_id, userId})`).  Concretely: user 1 owns project 0;
user 2's createPrompt on project 0 succeeds and persists a prompt owned
by user 2 under user 1's project, instead of failing NotFound. -/
theorem c3_createPrompt_ignores_owner :
    ((run [Op.createProject 1 ⟨"P", none⟩]).projects.map
      (fun p => (p.id, p.userId)) = [(0, 1)])
    ∧ ((okVal (createPrompt (run [Op.createProject 1 ⟨"P", none⟩]) 2 0
        ⟨"x", none⟩)).map (fun p => (p.userId, p.projectId)) = some (2, 0))
    ∧ isOk (createPrompt (run [Op.createProject 1 ⟨"P", none⟩]) 2 0 ⟨"x", none⟩)
        = true := by decide

/-! ## C5 — ownership isolation -/

/-- C5: for distinct owners A ≠ B, when every entity carrying id `i`
belongs to B, caller A's getById, update and softDelete on `i` all fail
with the respective 404 NotFound, and the failed requests leave the
store unchanged. -/
theorem c5_ownership_isolation (s : Store) (A B i : Nat) (hAB : A ≠ B)
    (hproj : ∀ p ∈ s.projects, p.id = i → p.userId = B)
    (hpr : ∀ p ∈ s.prompts, p.id = i → p.userId = B)
    (hver : ∀ v ∈ s.versions, v.id = i → v.userId = B) :
    getProjectById s i (some A) = .error (.api 404 PROJECT_NOT_FOUND)
    ∧ getPromptById s i (some A) = .error (.api 404 PROMPT_NOT_FOUND)
    ∧ getPromptVersionById s i (some A)
        = .error (.api 404 PROMPT_VERSION_NOT_FOUND)
    ∧ (∀ ub : UpdateProjectBody,
        updateProject s i A ub = .error (.api 404 PROJECT_NOT_FOUND))
    ∧ (∀ ub : UpdatePromptBody,
        updatePrompt s i A ub = .error (.api 404 PROMPT_NOT_FOUND))
    ∧ (∀ ub : UpdateVersionBody,
        updatePromptVersion s i A ub = .error (.api 404 PROMPT_VERSION_NOT_FOUND))
    ∧ deleteProject s i A = .error (.api 404 PROJECT_NOT_FOUND)
    ∧ deletePrompt s i A = .error (.api 404 PROMPT_NOT_FOUND)
    ∧ deletePromptVersion s i A = .error (.api 404 PROMPT_VERSION_NOT_FOUND)
    ∧ (∀ ub, applyOp s (.updateProject i A ub) = s)
    ∧ (∀ ub, applyOp s (.updatePrompt i A ub) = s)
    ∧ (∀ ub, applyOp s (.updatePromptVersion i A ub) = s)
    ∧ applyOp s (.deleteProject i A) = s
    ∧ applyOp s (.deletePrompt i A) = s
    ∧ applyOp s (.deletePromptVersion i A) = s := by
  have hfp : s.projects.find? (fun p => p.id == i && p.userId == A) = none := by
    rw [List.find?_eq_none]
    intro p hp hmatch
    simp only [Bool.and_eq_true, beq_iff_eq] at hmatch
    exact hAB (by rw [← hmatch.2, hproj p hp hmatch.1])
  have hfpr : s.prompts.find? (fun p => p.id == i && p.userId == A) = none := by
    rw [List.find?_eq_none]
    intro p hp hmatch
    simp only [Bool.and_eq_true, beq_iff_eq] at hmatch
    exact hAB (by rw [← hmatch.2, hpr p hp hmatch.1])
  have hfv : s.versions.find? (fun v => v.id == i && v.userId == A) = none := by
    rw [List.find?_eq_none]
    intro v hv hmatch
    simp only [Bool.and_eq_true, beq_iff_eq] at hmatch
    exact hAB (by rw [← hmatch.2, hver v hv hmatch.1])
  have hgp : getProjectById s i (some A) = .error (.api 404 PROJECT_NOT_FOUND) := by
    unfold getProjectById
    rw [show s.projects.find? (fun p => p.id == i && optEq (some A) p.userId)
      = none from hfp]
  have hgpr : getPromptById s i (some A) = .error (.api 404 PROMPT_NOT_FOUND) := by
    unfold getPromptById
    rw [show s.prompts.find? (fun p => p.id == i && optEq (some A) p.userId)
      = none from hfpr]
  have hgv : getPromptVersionById s i (some A)
      = .error (.api 404 PROMPT_VERSION_NOT_FOUND) := by
    unfold getPromptVersionById
    rw [show s.versions.find? (fun v => v.id == i && optEq (some A) v.userId)
      = none from hfv]
  have hup : ∀ ub : UpdateProjectBody,
      updateProject s i A ub = .error (.api 404 PROJECT_NOT_FOUND) := by
    intro ub
    unfold updateProject
    rw [hfp]
  have hupr : ∀ ub : UpdatePromptBody,
      updatePrompt s i A ub = .error (.api 404 PROMPT_NOT_FOUND) := by
    intro ub
    unfold updatePrompt
    rw [hfpr]
  have huv : ∀ ub : UpdateVersionBody,
      updatePromptVersion s i A ub = .error (.api 404 PROMPT_VERSION_NOT_FOUND) := by
    intro ub
    unfold updatePromptVersion
    rw [hfv]
  have hdp : deleteProject s i A = .error (.api 404 PROJECT_NOT_FOUND) := by
    unfold deleteProject
    rw [hfp]
  have hdpr : deletePrompt s i A = .error (.api 404 PROMPT_NOT_FOUND) := by
    unfold deletePrompt
    rw [hfpr]
  have hdv : deletePromptVersion s i A
      = .error (.api 404 PROMPT_VERSION_NOT_FOUND) := by
    unfold deletePromptVersion
    rw [hfv]
  refine ⟨hgp, hgpr, hgv, hup, hupr, huv, hdp, hdpr, hdv, ?_, ?_, ?_, ?_, ?_, ?_⟩
  · intro ub
    show (match updateProject s i A ub with
      | .ok (_, s') => s' | .error _ => s) = s
    rw [hup ub]
  · intro ub
    show (match updatePrompt s i A ub with
      | .ok (_, s') => s' | .error _ => s) = s
    rw [hupr ub]
  · intro ub
    show (match updatePromptVersion s i A ub with
      | .ok (_, s') => s'
      | .error _ => updatePromptVersionFailState s i A ub) = s
    rw [huv ub]
    show updatePromptVersionFailState s i A ub = s
    unfold updatePromptVersionFailState
    rw [hfv]
  · show (match deleteProject s i A with
      | .ok (_, s') => s' | .error _ => s) = s
    rw [hdp]
  · show (match deletePrompt s i A with
      | .ok (_, s') => s' | .error _ => s) = s
    rw [hdpr]
  · show (match deletePromptVersion s i A with
      | .ok (_, s') => s' | .error _ => s) = s
    rw [hdv]

def c5store : Store :=
  ⟨[], [⟨7, 2, "P", true⟩], [⟨7, 2, 7, "pr", true⟩],
   [⟨7, 2, 7, "t", "v1", "Version 1", true, true⟩], 8⟩

/-- C5 witness: owner 2's project/prompt/version (id 7) are invisible
and immutable to caller 1. -/
theorem c5_ownership_isolation_witness :
    getProjectById c5store 7 (some 1) = .error (.api 404 PROJECT_NOT_FOUND)
    ∧ updatePrompt c5store 7 1 ⟨some "x", none⟩
        = .error (.api 404 PROMPT_NOT_FOUND)
    ∧ deletePromptVersion c5store 7 1
        = .error (.api 404 PROMPT_VERSION_NOT_FOUND)
    ∧ applyOp c5store (.deletePromptVersion 7 1) = c5store := by
  have h := c5_ownership_isolation c5store 1 2 7 (by decide) (by decide)
    (by decide) (by decide)
  exact ⟨h.1, h.2.2.2.2.1 ⟨some "x", none⟩, h.2.2.2.2.2.2.2.2.1,
    h.2.2.2.2.2.2.2.2.2.2.2.2.2.2⟩

/-! ## C6 — no auto-promotion after deleting the active version -/

/-- C6: when prompt `pid` exists and is not soft-deleted and the only
version of it carrying both `isActiveVersion = true` and
`isActive = true` is the one with id `vid` owned by `u`, soft-deleting
that version succeeds, the public read then fails NoActiveVersion, and
no version of the prompt is left (or newly made) active. -/
theorem c6_no_auto_promotion (s : Store) (u pid vid : Nat) (v : Version)
    (hval : validatePromptExists s pid none = .ok ())
    (hnodup : (s.versions.map Version.id).Nodup)
    (hfind : s.versions.find? (fun w => w.id == vid && w.userId == u) = some v)
    (huniq : ∀ w ∈ s.versions, w.promptId = pid → w.activePrompt = true →
      w.isActive = true → w.id = vid) :
    isOk (deletePromptVersion s vid u) = true
    ∧ (okState (deletePromptVersion s vid u)).map
        (fun s' => getActivePromptVersion s' pid)
        = some (.error (.api 404 NO_ACTIVE_VERSION_FOUND))
    ∧ (okState (deletePromptVersion s vid u)).map
        (fun s' => s'.versions.countP
          (fun w => w.promptId == pid && w.activePrompt && w.isActive))
        = some 0 := by
  obtain ⟨hm, hidv, huidv⟩ := find?_version_owner hfind
  have hdel : deletePromptVersion s vid u
      = .ok ({ v with isActive := false }, { s with versions := updateFirst (fun w => w.id == vid && w.userId == u) (fun x => { x with isActive := false }) s.versions }) := by
    unfold deletePromptVersion
    rw [hfind]
  have hfvmem : ({ v with isActive := false } : Version)
      ∈ updateFirst (fun w => w.id == vid && w.userId == u)
        (fun x => { x with isActive := false }) s.versions :=
    updateFirst_first_match_mem hfind
  have hnodup' : ((updateFirst (fun w => w.id == vid && w.userId == u)
      (fun x => { x with isActive := false }) s.versions).map Version.id).Nodup := by
    rw [map_updateFirst (f := fun x : Version => { x with isActive := false })
      Version.id (fun _ => rfl)]
    exact hnodup
  have hclear : ∀ w ∈ updateFirst (fun w => w.id == vid && w.userId == u)
      (fun x => { x with isActive := false }) s.versions,
      ¬((w.promptId == pid && w.activePrompt && w.isActive) = true) := by
    intro w hw hmatch
    simp only [Bool.and_eq_true, beq_iff_eq] at hmatch
    obtain ⟨⟨hwpid, hwact⟩, hwisact⟩ := hmatch
    rcases mem_updateFirst hw with hwl | ⟨x, _, _, hwx⟩
    · have hwid : w.id = vid := huniq w hwl hwpid hwact hwisact
      have hwfv : w = { v with isActive := false } :=
        eq_of_nodup_key hnodup' hw hfvmem
          (show w.id = ({ v with isActive := false } : Version).id by
            rw [hwid]; exact hidv.symm)
      rw [hwfv] at hwisact
      exact absurd hwisact (by simp)
    · rw [hwx] at hwisact
      exact absurd hwisact (by simp)
  obtain ⟨P, hPfind, hPact⟩ := validatePromptExists_ok hval
  have hread : getActivePromptVersion { s with versions := updateFirst (fun w => w.id == vid && w.userId == u) (fun x => { x with isActive := false }) s.versions } pid = .error (.api 404 NO_ACTIVE_VERSION_FOUND) := by
    have hval' : validatePromptExists { s with versions := updateFirst (fun w => w.id == vid && w.userId == u) (fun x => { x with isActive := false }) s.versions } pid none = Except.ok () := hval
    unfold getActivePromptVersion
    rw [hval']
    show (match (updateFirst (fun w => w.id == vid && w.userId == u) (fun x => { x with isActive := false }) s.versions).find? (fun v => v.promptId == pid && v.activePrompt && v.isActive) with
      | none => Except.error (SvcError.api 404 NO_ACTIVE_VERSION_FOUND)
      | some v => Except.ok v) = Except.error (SvcError.api 404 NO_ACTIVE_VERSION_FOUND)
    rw [List.find?_eq_none.mpr hclear]
  refine ⟨?_, ?_, ?_⟩
  · rw [hdel]; rfl
  · rw [hdel]
    exact congrArg some hread
  · rw [hdel]
    exact congrArg some (List.countP_eq_zero.mpr hclear)

def c6ops : List Op :=
  [.createProject 1 ⟨"P", none⟩, .createPrompt 1 0 ⟨"pr", none⟩,
   .createPromptVersion 1 1 ⟨"t1", none, none⟩,
   .createPromptVersion 1 1 ⟨"t2", some true, none⟩]

/-- C6 witness: after creating v1 and an active v2, deleting v2 leaves
the public read failing NoActiveVersion (v1 is not promoted). -/
theorem c6_no_auto_promotion_witness :
    isOk (deletePromptVersion (run c6ops) 3 1) = true
    ∧ (okState (deletePromptVersion (run c6ops) 3 1)).map
        (fun s' => getActivePromptVersion s' 1)
        = some (.error (.api 404 NO_ACTIVE_VERSION_FOUND))
    ∧ (okState (deletePromptVersion (run c6ops) 3 1)).map
        (fun s' => s'.versions.countP
          (fun w => w.promptId == 1 && w.activePrompt && w.isActive))
        = some 0 :=
  c6_no_auto_promotion (run c6ops) 1 1 3
    ⟨3, 1, 1, "t2", "v2", "Version 2", true, true⟩
    (by decide) (by decide) (by decide) (by decide)

/-! ## C7 — repeated soft-delete -/

/-- C7 counterexample: the softDelete filter `{_id, userId}` has no
`isActive` clause, so a second delete of the same project by its owner
succeeds again (and keeps returning the entity with `isActive = false`)
instead of failing NotFound as the claim states. -/
theorem c7_second_delete_succeeds :
    (okVal (deleteProject (run [Op.createProject 1 ⟨"P", none⟩]) 0 1)).map
      Project.isActive = some false
    ∧ deleteProject (applyOp (run [Op.createProject 1 ⟨"P", none⟩])
        (Op.deleteProject 0 1)) 0 1
      ≠ Except.error (SvcError.api 404 PROJECT_NOT_FOUND)
    ∧ (okVal (deleteProject (applyOp (run [Op.createProject 1 ⟨"P", none⟩])
        (Op.deleteProject 0 1)) 0 1)).map Project.isActive = some false := by
  decide

/-- C7 amended: for every entity kind, the first softDelete by the owner
flips `isActive` to false and returns the entity, and a second softDelete
by the same owner on the same id succeeds again, returning the entity
still soft-deleted — repeated soft-delete is idempotent in effect, and
NotFound arises only for ids that do not match the owner at all. -/
theorem c7_softdelete_idempotent_success (s : Store) (i u : Nat)
    (p : Project) (pr : Prompt) (v : Version)
    (hp : s.projects.find? (fun x => x.id == i && x.userId == u) = some p)
    (hpr : s.prompts.find? (fun x => x.id == i && x.userId == u) = some pr)
    (hv : s.versions.find? (fun x => x.id == i && x.userId == u) = some v) :
    ((okVal (deleteProject s i u)).map Project.isActive = some false
      ∧ (okState (deleteProject s i u)).map
          (fun s1 => (okVal (deleteProject s1 i u)).map Project.isActive)
          = some (some false))
    ∧ ((okVal (deletePrompt s i u)).map Prompt.isActive = some false
      ∧ (okState (deletePrompt s i u)).map
          (fun s1 => (okVal (deletePrompt s1 i u)).map Prompt.isActive)
          = some (some false))
    ∧ ((okVal (deletePromptVersion s i u)).map Version.isActive = some false
      ∧ (okState (deletePromptVersion s i u)).map
          (fun s1 => (okVal (deletePromptVersion s1 i u)).map Version.isActive)
          = some (some false)) := by
  have h1p : deleteProject s i u = .ok ({ p with isActive := false }, { s with projects := updateFirst (fun x => x.id == i && x.userId == u) (fun x => { x with isActive := false }) s.projects }) := by
    unfold deleteProject
    rw [hp]
  have h2pfind : (updateFirst (fun x => x.id == i && x.userId == u)
      (fun x => { x with isActive := false }) s.projects).find?
      (fun x => x.id == i && x.userId == u) = some { p with isActive := false } := by
    rw [find?_updateFirst (q := fun x : Project => x.id == i && x.userId == u)
      (f := fun x : Project => { x with isActive := false }) (fun _ => rfl), hp]
    rfl
  have h1pr : deletePrompt s i u = .ok ({ pr with isActive := false }, { s with prompts := updateFirst (fun x => x.id == i && x.userId == u) (fun x => { x with isActive := false }) s.prompts }) := by
    unfold deletePrompt
    rw [hpr]
  have h2prfind : (updateFirst (fun x => x.id == i && x.userId == u)
      (fun x => { x with isActive := false }) s.prompts).find?
      (fun x => x.id == i && x.userId == u) = some { pr with isActive := false } := by
    rw [find?_updateFirst (q := fun x : Prompt => x.id == i && x.userId == u)
      (f := fun x : Prompt => { x with isActive := false }) (fun _ => rfl), hpr]
    rfl
  have h1v : deletePromptVersion s i u = .ok ({ v with isActive := false }, { s with versions := updateFirst (fun x => x.id == i && x.userId == u) (fun x => { x with isActive := false }) s.versions }) := by
    unfold deletePromptVersion
    rw [hv]
  have h2vfind : (updateFirst (fun x => x.id == i && x.userId == u)
      (fun x => { x with isActive := false }) s.versions).find?
      (fun x => x.id == i && x.userId == u) = some { v with isActive := false } := by
    rw [find?_updateFirst (q := fun x : Version => x.id == i && x.userId == u)
      (f := fun x : Version => { x with isActive := false }) (fun _ => rfl), hv]
    rfl
  refine ⟨⟨by rw [h1p]; rfl, ?_⟩, ⟨by rw [h1pr]; rfl, ?_⟩, ⟨by rw [h1v]; rfl, ?_⟩⟩
  · rw [h1p]
    refine congrArg some ?_
    simp [deleteProject, h2pfind, okVal]
  · rw [h1pr]
    refine congrArg some ?_
    simp [deletePrompt, h2prfind, okVal]
  · rw [h1v]
    refine congrArg some ?_
    simp [deletePromptVersion, h2vfind, okVal]

/-- C7 witness at a concrete store holding one entity of each kind. -/
theorem c7_softdelete_idempotent_witness :
    (okVal (deleteProject c5store 7 2)).map Project.isActive = some false
    ∧ (okState (deleteProject c5store 7 2)).map
        (fun s1 => (okVal (deleteProject s1 7 2)).map Project.isActive)
        = some (some false) := by
  have h := c7_softdelete_idempotent_success c5store 7 2
    ⟨7, 2, "P", true⟩ ⟨7, 2, 7, "pr", true⟩
    ⟨7, 2, 7, "t", "v1", "Version 1", true, true⟩
    (by decide) (by decide) (by decide)
  exact ⟨h.1.1, h.1.2⟩

/-! ## C8 — signup email normalization and duplicate failure -/

theorem signupUser_ok {s : Store} {b : SignupBody} {r : UserRec} {s1 : Store}
    (h : signupUser s b = .ok (r, s1)) :
    r.email = jsTrim (jsToLower b.email) ∧ s1.users = s.users ++ [r] := by
  unfold signupUser at h
  split at h
  · exact absurd h (by simp)
  · split at h
    · exact absurd h (by simp)
    · injection h with h'
      injection h' with h1 h2
      constructor
      · rw [← h1]
      · rw [← h2, ← h1]

/-- C8 counterexample: after registering "a@b.com", a signup whose email
differs only by surrounding whitespace slips past the service's
uniqueness check — `signupUser` lower-cases but does not trim the
submitted email before `User.findOne` — so the second signup is not
rejected by that check with the generic message; it fails only at save
time with the storage duplicate-key error. -/
theorem c8_check_does_not_trim :
    (okState (signupUser Store.empty ⟨"a@b.com", "pw", none⟩)).map
      (fun s1 => signupUser s1 ⟨" a@b.com", "pw", none⟩)
      = some (.error (.duplicateKey "email")) := by decide

/-- C8 amended: signupUser lower-cases (but does not trim) the email for
its explicit uniqueness check and stores emails lower-cased and trimmed;
a duplicate that slips past the check hits the User schema's unique
email index, and the signup controller maps that duplicate-key failure
to the same generic message — so for every pair of signup emails that
agree after lower-casing and trimming (in particular pairs differing
only in letter case or surrounding whitespace), the second register
fails with "Unable to create account. Please try again.". -/
theorem c8_second_signup_fails_generic (s : Store) (b1 b2 : SignupBody)
    (r : UserRec) (s1 : Store)
    (h1 : signupUser s b1 = .ok (r, s1))
    (heq : jsTrim (jsToLower b2.email) = jsTrim (jsToLower b1.email)) :
    register s1 b2 = .error (.api 400 UNABLE_TO_CREATE_ACCOUNT) := by
  obtain ⟨hre, hs1u⟩ := signupUser_ok h1
  have hrmem : r ∈ s1.users := by
    rw [hs1u]
    exact List.mem_append.mpr (Or.inr (List.mem_singleton_self r))
  unfold register signupUser
  cases hf : s1.users.find? (fun u => u.email == jsToLower b2.email) with
  | some w => rfl
  | none =>
    have hany : s1.users.any (fun u => u.email == jsTrim (jsToLower b2.email))
        = true := by
      refine List.any_eq_true.mpr ⟨r, hrmem, ?_⟩
      rw [hre, heq]
      exact beq_self_eq_true _
    rw [hany]
    rfl

/-- C8 witness: "A@B.com " then " a@b.COM" — differing only in case and
whitespace — where the second register fails with the generic message. -/
theorem c8_second_signup_fails_generic_witness :
    register ⟨[⟨0, "a@b.com", none, true⟩], [], [], [], 1⟩
      ⟨" a@b.COM", "pw2", none⟩
      = .error (.api 400 UNABLE_TO_CREATE_ACCOUNT) :=
  c8_second_signup_fails_generic Store.empty ⟨"A@B.com ", "pw", none⟩
    ⟨" a@b.COM", "pw2", none⟩ ⟨0, "a@b.com", none, true⟩
    ⟨[⟨0, "a@b.com", none, true⟩], [], [], [], 1⟩ (by decide) (by decide)

/-! ## C9 — update does not treat soft-deleted entities as absent -/

/-- C9 (amended): an entity that exists under the caller's ownerId with
`isActive = false` is still found by update — no update document with a
recognized field is rejected as NotFound.  The update succeeds whenever
the supplied values pass the schema's update validators (`runValidators:
true`: a provided name must trim to 1–200 characters, a provided
promptText to at least 1) and fails with a ValidationError otherwise;
the update `{isActive: true}` restores the entity so that a subsequent
getById by the same owner succeeds. -/
theorem c9_update_restores (s : Store) (i u : Nat)
    (p : Project) (pr : Prompt) (v : Version)
    (hp : s.projects.find? (fun x => x.id == i && x.userId == u) = some p)
    (_hpd : p.isActive = false)
    (hpr : s.prompts.find? (fun x => x.id == i && x.userId == u) = some pr)
    (_hprd : pr.isActive = false)
    (hv : s.versions.find? (fun x => x.id == i && x.userId == u) = some v)
    (_hvd : v.isActive = false) :
    (∀ ub : UpdateProjectBody, (ub.name.isNone && ub.isActive.isNone) = false →
      updateProject s i u ub ≠ .error (.api 404 PROJECT_NOT_FOUND))
    ∧ (∀ ub : UpdateProjectBody, (ub.name.isNone && ub.isActive.isNone) = false →
      projectSetValid ub = true → isOk (updateProject s i u ub) = true)
    ∧ (∀ ub : UpdatePromptBody, (ub.name.isNone && ub.isActive.isNone) = false →
      updatePrompt s i u ub ≠ .error (.api 404 PROMPT_NOT_FOUND))
    ∧ (∀ ub : UpdatePromptBody, (ub.name.isNone && ub.isActive.isNone) = false →
      promptSetValid ub = true → isOk (updatePrompt s i u ub) = true)
    ∧ (∀ ub : UpdateVersionBody,
        (ub.promptText.isNone && ub.activePrompt.isNone && ub.isActive.isNone)
          = false →
      updatePromptVersion s i u ub ≠ .error (.api 404 PROMPT_VERSION_NOT_FOUND))
    ∧ (∀ ub : UpdateVersionBody,
        (ub.promptText.isNone && ub.activePrompt.isNone && ub.isActive.isNone)
          = false →
      versionSetValid ub = true → isOk (updatePromptVersion s i u ub) = true)
    ∧ (okState (updateProject s i u ⟨none, some true⟩)).map
        (fun s' => isOk (getProjectById s' i (some u))) = some true
    ∧ (okState (updatePrompt s i u ⟨none, some true⟩)).map
        (fun s' => isOk (getPromptById s' i (some u))) = some true
    ∧ (okState (updatePromptVersion s i u ⟨none, none, some true⟩)).map
        (fun s' => isOk (getPromptVersionById s' i (some u))) = some true := by
  obtain ⟨hvm, hvid, hvu⟩ := find?_version_owner hv
  refine ⟨?_, ?_, ?_, ?_, ?_, ?_, ?_, ?_, ?_⟩
  · intro ub hcond
    cases hval : projectSetValid ub with
    | false =>
      have herr : updateProject s i u ub = .error (.validation "name") := by
        unfold updateProject
        rw [hp, hcond, hval]
        rfl
      rw [herr]
      intro hcontra
      injection hcontra with h'
      exact SvcError.noConfusion h'
    | true =>
      have hok : isOk (updateProject s i u ub) = true := by
        unfold updateProject
        rw [hp, hcond, hval]
        rfl
      intro hcontra
      rw [hcontra] at hok
      exact absurd hok (by simp [isOk])
  · intro ub hcond hval
    unfold updateProject
    rw [hp, hcond, hval]
    rfl
  · intro ub hcond
    cases hval : promptSetValid ub with
    | false =>
      have herr : updatePrompt s i u ub = .error (.validation "name") := by
        unfold updatePrompt
        rw [hpr, hcond, hval]
        rfl
      rw [herr]
      intro hcontra
      injection hcontra with h'
      exact SvcError.noConfusion h'
    | true =>
      have hok : isOk (updatePrompt s i u ub) = true := by
        unfold updatePrompt
        rw [hpr, hcond, hval]
        rfl
      intro hcontra
      rw [hcontra] at hok
      exact absurd hok (by simp [isOk])
  · intro ub hcond hval
    unfold updatePrompt
    rw [hpr, hcond, hval]
    rfl
  · intro ub hcond
    have hstep : updatePromptVersion s i u ub
        = updateVersionDoc (if (ub.activePrompt == some true) = true then
            deactivateOtherVersions s v.promptId (some i) (some u) else s) i u ub := by
      unfold updatePromptVersion
      rw [hv, hcond]
      rfl
    rw [hstep]
    cases hval : versionSetValid ub with
    | false =>
      have herr : ∀ s1 : Store, updateVersionDoc s1 i u ub
          = .error (.validation "promptText") := by
        intro s1
        unfold updateVersionDoc
        rw [hval]
        rfl
      rw [herr]
      intro hcontra
      injection hcontra with h'
      exact SvcError.noConfusion h'
    | true =>
      have hok : isOk (updateVersionDoc (if (ub.activePrompt == some true) = true
          then deactivateOtherVersions s v.promptId (some i) (some u) else s)
          i u ub) = true := by
        by_cases hb : (ub.activePrompt == some true) = true
        · rw [if_pos hb]
          unfold updateVersionDoc
          rw [hval, deactivate_find?_self v.promptId hv hvid]
          rfl
        · rw [if_neg hb]
          unfold updateVersionDoc
          rw [hval, hv]
          rfl
      intro hcontra
      rw [hcontra] at hok
      exact absurd hok (by simp [isOk])
  · intro ub hcond hval
    unfold updatePromptVersion
    rw [hv, hcond]
    show isOk (updateVersionDoc (if (ub.activePrompt == some true) = true then
      deactivateOtherVersions s v.promptId (some i) (some u) else s) i u ub) = true
    by_cases hb : (ub.activePrompt == some true) = true
    · rw [if_pos hb]
      unfold updateVersionDoc
      rw [hval, deactivate_find?_self v.promptId hv hvid]
      rfl
    · rw [if_neg hb]
      unfold updateVersionDoc
      rw [hval, hv]
      rfl
  · have hres : updateProject s i u ⟨none, some true⟩
        = .ok (applyProjectUpdate ⟨none, some true⟩ p, { s with projects := updateFirst (fun x => x.id == i && x.userId == u) (applyProjectUpdate ⟨none, some true⟩) s.projects }) := by
      unfold updateProject
      rw [hp]
      rfl
    have hfind2 : (updateFirst (fun x => x.id == i && x.userId == u)
        (applyProjectUpdate ⟨none, some true⟩) s.projects).find?
        (fun x => x.id == i && x.userId == u)
        = some (applyProjectUpdate ⟨none, some true⟩ p) := by
      rw [find?_updateFirst (q := fun x : Project => x.id == i && x.userId == u)
        (f := applyProjectUpdate ⟨none, some true⟩) (fun _ => rfl), hp]
      rfl
    have hget : getProjectById { s with projects := updateFirst (fun x => x.id == i && x.userId == u) (applyProjectUpdate ⟨none, some true⟩) s.projects } i (some u) = .ok (applyProjectUpdate ⟨none, some true⟩ p) := by
      unfold getProjectById
      rw [show ({ s with projects := updateFirst (fun x => x.id == i && x.userId == u) (applyProjectUpdate ⟨none, some true⟩) s.projects } : Store).projects.find? (fun x => x.id == i && optEq (some u) x.userId) = some (applyProjectUpdate ⟨none, some true⟩ p) from hfind2]
      rfl
    rw [hres]
    refine congrArg some ?_
    show isOk (getProjectById { s with projects := updateFirst (fun x => x.id == i && x.userId == u) (applyProjectUpdate ⟨none, some true⟩) s.projects } i (some u)) = true
    rw [hget]
    rfl
  · have hres : updatePrompt s i u ⟨none, some true⟩
        = .ok (applyPromptUpdate ⟨none, some true⟩ pr, { s with prompts := updateFirst (fun x => x.id == i && x.userId == u) (applyPromptUpdate ⟨none, some true⟩) s.prompts }) := by
      unfold updatePrompt
      rw [hpr]
      rfl
    have hfind2 : (updateFirst (fun x => x.id == i && x.userId == u)
        (applyPromptUpdate ⟨none, some true⟩) s.prompts).find?
        (fun x => x.id == i && x.userId == u)
        = some (applyPromptUpdate ⟨none, some true⟩ pr) := by
      rw [find?_updateFirst (q := fun x : Prompt => x.id == i && x.userId == u)
        (f := applyPromptUpdate ⟨none, some true⟩) (fun _ => rfl), hpr]
      rfl
    have hget : getPromptById { s with prompts := updateFirst (fun x => x.id == i && x.userId == u) (applyPromptUpdate ⟨none, some true⟩) s.prompts } i (some u) = .ok (applyPromptUpdate ⟨none, some true⟩ pr) := by
      unfold getPromptById
      rw [show ({ s with prompts := updateFirst (fun x => x.id == i && x.userId == u) (applyPromptUpdate ⟨none, some true⟩) s.prompts } : Store).prompts.find? (fun x => x.id == i && optEq (some u) x.userId) = some (applyPromptUpdate ⟨none, some true⟩ pr) from hfind2]
      rfl
    rw [hres]
    refine congrArg some ?_
    show isOk (getPromptById { s with prompts := updateFirst (fun x => x.id == i && x.userId == u) (applyPromptUpdate ⟨none, some true⟩) s.prompts } i (some u)) = true
    rw [hget]
    rfl
  · have hstep : updatePromptVersion s i u ⟨none, none, some true⟩
        = updateVersionDoc s i u ⟨none, none, some true⟩ := by
      unfold updatePromptVersion
      rw [hv]
      rfl
    have hres : updateVersionDoc s i u ⟨none, none, some true⟩
        = .ok (applyVersionUpdate ⟨none, none, some true⟩ v, { s with versions := updateFirst (fun x => x.id == i && x.userId == u) (applyVersionUpdate ⟨none, none, some true⟩) s.versions }) := by
      unfold updateVersionDoc
      rw [hv]
      rfl
    have hfind2 : (updateFirst (fun x => x.id == i && x.userId == u)
        (applyVersionUpdate ⟨none, none, some true⟩) s.versions).find?
        (fun x => x.id == i && x.userId == u)
        = some (applyVersionUpdate ⟨none, none, some true⟩ v) := by
      rw [find?_updateFirst (q := fun x : Version => x.id == i && x.userId == u)
        (f := applyVersionUpdate ⟨none, none, some true⟩) (fun _ => rfl), hv]
      rfl
    have hget : getPromptVersionById { s with versions := updateFirst (fun x => x.id == i && x.userId == u) (applyVersionUpdate ⟨none, none, some true⟩) s.versions } i (some u) = .ok (applyVersionUpdate ⟨none, none, some true⟩ v) := by
      unfold getPromptVersionById
      rw [show ({ s with versions := updateFirst (fun x => x.id == i && x.userId == u) (applyVersionUpdate ⟨none, none, some true⟩) s.versions } : Store).versions.find? (fun x => x.id == i && optEq (some u) x.userId) = some (applyVersionUpdate ⟨none, none, some true⟩ v) from hfind2]
      rfl
    rw [hstep, hres]
    refine congrArg some ?_
    show isOk (getPromptVersionById { s with versions := updateFirst (fun x => x.id == i && x.userId == u) (applyVersionUpdate ⟨none, none, some true⟩) s.versions } i (some u)) = true
    rw [hget]
    rfl

def c9store : Store :=
  ⟨[], [⟨0, 1, "P", false⟩], [⟨0, 1, 0, "pr", false⟩],
   [⟨0, 1, 0, "t", "v1", "Version 1", false, false⟩], 3⟩

set_option maxRecDepth 8000 in
/-- C9 counterexample: "any update document with at least one
recognized field succeeds" is false of the code.  `findOneAndUpdate`
runs the schema validators (`runValidators: true`), so the owner's
update of their soft-deleted project with `{name: " "}` — a recognized
field whose trimmed value is empty — fails with a ValidationError
instead of succeeding; so do a 201-character project name and an
all-whitespace promptText.  (The NotFound half of the claim is right:
none of these failures is a 404.) -/
theorem c9_update_validation_failure :
    updateProject c9store 0 1 ⟨some " ", none⟩ = .error (.validation "name")
    ∧ updatePrompt c9store 0 1 ⟨some " ", none⟩ = .error (.validation "name")
    ∧ updatePromptVersion c9store 0 1 ⟨some " ", none, none⟩
        = .error (.validation "promptText")
    ∧ isOk (updateProject c9store 0 1
        ⟨some (String.mk (List.replicate 201 'a')), none⟩) = false := by decide

/-- C9 witness: a store whose project, prompt and version are all
soft-deleted; updates still find them (never a 404), a valid update
succeeds, and isActive = true restores. -/
theorem c9_update_restores_witness :
    updateProject c9store 0 1 ⟨some "Q", none⟩
        ≠ .error (.api 404 PROJECT_NOT_FOUND)
    ∧ isOk (updateProject c9store 0 1 ⟨some "Q", none⟩) = true
    ∧ isOk (updatePromptVersion c9store 0 1 ⟨none, some true, none⟩) = true
    ∧ (okState (updateProject c9store 0 1 ⟨none, some true⟩)).map
        (fun s' => isOk (getProjectById s' 0 (some 1))) = some true
    ∧ (okState (updatePromptVersion c9store 0 1 ⟨none, none, some true⟩)).map
        (fun s' => isOk (getPromptVersionById s' 0 (some 1))) = some true := by
  have h := c9_update_restores c9store 0 1 ⟨0, 1, "P", false⟩ ⟨0, 1, 0, "pr", false⟩
    ⟨0, 1, 0, "t", "v1", "Version 1", false, false⟩
    (by decide) (by decide) (by decide) (by decide) (by decide) (by decide)
  exact ⟨h.1 ⟨some "Q", none⟩ rfl, h.2.1 ⟨some "Q", none⟩ rfl (by decide),
    h.2.2.2.2.2.1 ⟨none, some true, none⟩ rfl (by decide),
    h.2.2.2.2.2.2.1, h.2.2.2.2.2.2.2.2⟩

/-! ## C10 — soft-delete of a version is a single-field write -/

/-- C10: a successful deletePromptVersion returns and stores a document
identical to the original in every field except `isActive` (notably
`isActiveVersion`/activePrompt is preserved), keeps the collection's
length, and changes at most one stored document. -/
theorem c10_delete_single_field (s : Store) (vid u : Nat) (v : Version)
    (hfind : s.versions.find? (fun w => w.id == vid && w.userId == u) = some v) :
    (okVal (deletePromptVersion s vid u)).map (fun r =>
      (r.id, r.userId, r.promptId, r.promptText, r.version, r.versionName,
       r.activePrompt, r.isActive))
      = some (v.id, v.userId, v.promptId, v.promptText, v.version,
       v.versionName, v.activePrompt, false)
    ∧ (okState (deletePromptVersion s vid u)).map
        (fun s' => s'.versions.find? (fun w => w.id == vid && w.userId == u))
        = some (some { v with isActive := false })
    ∧ (okState (deletePromptVersion s vid u)).map (fun s' => s'.versions.length)
        = some s.versions.length
    ∧ ((okState (deletePromptVersion s vid u)).map (fun s' =>
        (s'.versions.countP (fun w => decide (w ∉ s.versions))))).getD 2 ≤ 1 := by
  have hdel : deletePromptVersion s vid u
      = .ok ({ v with isActive := false }, { s with versions := updateFirst (fun w => w.id == vid && w.userId == u) (fun x => { x with isActive := false }) s.versions }) := by
    unfold deletePromptVersion
    rw [hfind]
  have hfind2 : (updateFirst (fun w => w.id == vid && w.userId == u)
      (fun x => { x with isActive := false }) s.versions).find?
      (fun w => w.id == vid && w.userId == u)
      = some ({ v with isActive := false }) := by
    rw [find?_updateFirst (q := fun w : Version => w.id == vid && w.userId == u)
      (f := fun x : Version => { x with isActive := false }) (fun _ => rfl), hfind]
    rfl
  refine ⟨by rw [hdel]; rfl, ?_, ?_, ?_⟩
  · rw [hdel]
    exact congrArg some hfind2
  · rw [hdel]
    exact congrArg some (length_updateFirst s.versions _ _)
  · rw [hdel]
    show ((some _).map _).getD 2 ≤ 1
    rw [Option.map_some']
    exact countP_not_mem_updateFirst _ _ (fun x hx => hx)

def c10ops : List Op :=
  [.createProject 1 ⟨"P", none⟩, .createPrompt 1 0 ⟨"pr", none⟩,
   .createPromptVersion 1 1 ⟨"t1", some true, none⟩]

/-- C10 witness: deleting the active version id 2 flips only isActive;
activePrompt stays true on the stored document. -/
theorem c10_delete_single_field_witness :
    (okVal (deletePromptVersion (run c10ops) 2 1)).map (fun r =>
      (r.id, r.userId, r.promptId, r.promptText, r.version, r.versionName,
       r.activePrompt, r.isActive))
      = some (2, 1, 1, "t1", "v1", "Version 1", true, false)
    ∧ (okState (deletePromptVersion (run c10ops) 2 1)).map
        (fun s' => s'.versions.find? (fun w => w.id == 2 && w.userId == 1))
        = some (some ⟨2, 1, 1, "t1", "v1", "Version 1", true, false⟩) := by
  have h := c10_delete_single_field (run c10ops) 2 1
    ⟨2, 1, 1, "t1", "v1", "Version 1", true, true⟩ (by decide)
  exact ⟨h.1, h.2.1⟩

end Ameeba
